import Mathlib

/-!
# Alpaca proxy handler (`proxy.go`): embedding and verified properties

The handler code of `proxy.go` is embedded as pure functions from the outcomes
of its external calls (policy resolver, dialer, response reader, hijacker,
transport) to the ordered list of calls it makes on the response writer and
on connections.  The asynchronous relay task is embedded as a small-step
interleaving machine.

Go library functions the handlers call and whose result the properties depend
on (`net/url.Parse`, `http.Error`, `io.Copy`, `Header.Add`) are embedded from
the Go standard library sources (Go 1.21).  The response writer is the one the
`net/http` server hands to a handler: its `WriteHeader` panics on a code
outside 100..999, sends a 1xx code other than 101 as an informational line, and
the server completes an unstarted response with status 200.
-/

namespace Alpaca

/-! ## Go strings

Go strings are byte sequences.  They are embedded as lists of characters; all
delimiters the code inspects are ASCII, where the two views coincide. -/

deriving instance DecidableEq for Except

/-- Character list of a Go string. -/
abbrev Str := List Char

namespace Url

/-- Text before the first `sep` (all of `s` when absent): `s[:i]` for
`i = strings.IndexByte(s, sep)`. -/
def before (sep : Char) (s : Str) : Str := s.takeWhile (fun c => c != sep)

/-- Text from the first `sep` on (empty when absent): `s[i:]`. -/
def fromSep (sep : Char) (s : Str) : Str := s.dropWhile (fun c => c != sep)

/-- Text after the first `sep` (empty when absent): the second result of
`strings.Cut`. -/
def after (sep : Char) (s : Str) : Str := (fromSep sep s).drop 1

/-- Text after the last `sep`: `s[i+1:]` for `i = strings.LastIndex(s, sep)`. -/
def afterLast (sep : Char) (s : Str) : Str := (before sep s.reverse).reverse

/-- Text from the last `sep` on: `s[i:]` for `i = strings.LastIndex(s, sep)`. -/
def fromLast (sep : Char) (s : Str) : Str := sep :: afterLast sep s

/-- Text before the last `sep`: `s[:i]` for `i = strings.LastIndex(s, sep)`. -/
def beforeLast (sep : Char) (s : Str) : Str := (after sep s.reverse).reverse

/-- Split at the first occurrence of `pat`: `(s[:i], s[i:])` for
`i = strings.Index(s, pat)`, or `none` when `pat` does not occur. -/
def splitAtSub (pat : Str) : Str → Option (Str × Str)
  | [] => if pat.isEmpty then some ([], []) else none
  | c :: cs =>
    if pat.isPrefixOf (c :: cs) then some ([], c :: cs)
    else (splitAtSub pat cs).map (fun p => (c :: p.1, p.2))

/-- Lower-case hexadecimal digit of `n < 16`. -/
def hexDigit (n : Nat) : Char := if n < 10 then Char.ofNat (48 + n) else Char.ofNat (87 + n)

/-- Go `strconv.Quote` on one character: a double quote and a backslash get a
backslash, the control characters their escape (`\n`, `\t`, ..., or `\x` and
two hexadecimal digits); every other character is kept (Go also escapes the
unprintable characters above U+007F). -/
def quoteChar (c : Char) : Str :=
  if c.toNat = 34 then [Char.ofNat 92, Char.ofNat 34]
  else if c.toNat = 92 then [Char.ofNat 92, Char.ofNat 92]
  else if c.toNat = 7 then [Char.ofNat 92, 'a']
  else if c.toNat = 8 then [Char.ofNat 92, 'b']
  else if c.toNat = 12 then [Char.ofNat 92, 'f']
  else if c.toNat = 10 then [Char.ofNat 92, 'n']
  else if c.toNat = 13 then [Char.ofNat 92, 'r']
  else if c.toNat = 9 then [Char.ofNat 92, 't']
  else if c.toNat = 11 then [Char.ofNat 92, 'v']
  else if c.toNat < 32 || c.toNat = 127 then
    [Char.ofNat 92, 'x', hexDigit (c.toNat / 16), hexDigit (c.toNat % 16)]
  else [c]

/-- Go `strconv.Quote`, the `%q` of `fmt`: the text in double quotes with its
characters escaped. -/
def quote (s : Str) : String :=
  String.mk (Char.ofNat 34 :: (s.flatMap quoteChar ++ [Char.ofNat 34]))

/-- The `net/url` encoding modes that `Parse` uses. -/
inductive Encoding
  | encodePath
  | encodeHost
  | encodeZone
  | encodeUserPassword
  | encodeFragment
  deriving DecidableEq, Repr

/-- The `net/url` type `Userinfo`: a username and an optional password. -/
structure Userinfo where
  username : String
  password : Option String
  deriving DecidableEq, Repr

/-- The `net/url` type `URL` (the `RawPath` and `RawFragment` encoding hints
are left out). -/
structure URL where
  Scheme : String := ""
  Opaque : String := ""
  User : Option Userinfo := none
  Host : String := ""
  Path : String := ""
  ForceQuery : Bool := false
  RawQuery : String := ""
  Fragment : String := ""
  OmitHost : Bool := false
  deriving DecidableEq, Repr

/-- Go `stringContainsCTLByte`: some byte is below space or is DEL. -/
def stringContainsCTLByte (s : Str) : Bool :=
  s.any (fun c => decide (c.toNat < 32) || decide (c.toNat = 127))

def isLetter (c : Char) : Bool :=
  (decide (97 ≤ c.toNat) && decide (c.toNat ≤ 122)) ||
  (decide (65 ≤ c.toNat) && decide (c.toNat ≤ 90))

def isDigit (c : Char) : Bool := decide (48 ≤ c.toNat) && decide (c.toNat ≤ 57)

/-- Go `getScheme`, scanning `rest` at index `i` of `rawURL`: returns the
scheme and the text after its colon, or no scheme and all of `rawURL`. -/
def getSchemeFrom (rawURL : Str) : Nat → Str → Except String (Str × Str)
  | _, [] => .ok ([], rawURL)
  | i, c :: rest =>
    if isLetter c then getSchemeFrom rawURL (i + 1) rest
    else if isDigit c || c = '+' || c = '-' || c = '.' then
      if i = 0 then .ok ([], rawURL) else getSchemeFrom rawURL (i + 1) rest
    else if c = ':' then
      if i = 0 then .error "missing protocol scheme" else .ok (rawURL.take i, rest)
    else .ok ([], rawURL)

/-- Go `getScheme`. -/
def getScheme (rawURL : Str) : Except String (Str × Str) :=
  getSchemeFrom rawURL 0 rawURL

def ishex (c : Char) : Bool :=
  isDigit c || (decide (97 ≤ c.toNat) && decide (c.toNat ≤ 102)) ||
    (decide (65 ≤ c.toNat) && decide (c.toNat ≤ 70))

def unhex (c : Char) : Nat :=
  if isDigit c then c.toNat - 48
  else if decide (97 ≤ c.toNat) && decide (c.toNat ≤ 102) then c.toNat - 97 + 10
  else if decide (65 ≤ c.toNat) && decide (c.toNat ≤ 70) then c.toNat - 65 + 10
  else 0

/-- Go `shouldEscape(c, encodeHost)`: everything but letters, digits, the
sub-delimiters allowed in a host, and the unreserved marks. -/
def shouldEscapeHost (c : Char) : Bool :=
  !(isLetter c || isDigit c ||
    ['!', '$', '&', Char.ofNat 39, '(', ')', '*', '+', ',', ';', '=', ':', '[', ']',
      '<', '>', '"'].contains c ||
    ['-', '_', '.', '~'].contains c)

/-- Go `unescape(s, mode)` for the modes of `Parse`: checks every percent
escape (and, for a host, every plain character) from left to right and
decodes the escapes.  A decoded byte is kept as the character of that code;
for a byte of 0x80 and above Go's string holds the byte itself. -/
def unescape (mode : Encoding) : Str → Except String Str
  | [] => .ok []
  | [c] =>
    if c = '%' then .error ("invalid URL escape " ++ quote [c])
    else if (mode = .encodeHost || mode = .encodeZone) && decide (c.toNat < 128)
        && shouldEscapeHost c then
      .error ("invalid character " ++ quote [c] ++ " in host name")
    else .ok [c]
  | [c, d] =>
    if c = '%' then .error ("invalid URL escape " ++ quote [c, d])
    else if (mode = .encodeHost || mode = .encodeZone) && decide (c.toNat < 128)
        && shouldEscapeHost c then
      .error ("invalid character " ++ quote [c] ++ " in host name")
    else (unescape mode [d]).map (fun t => c :: t)
  | c :: h1 :: h2 :: tl =>
    if c = '%' then
      if !(ishex h1 && ishex h2) then
        .error ("invalid URL escape " ++ quote [c, h1, h2])
      else if mode = .encodeHost && decide (unhex h1 < 8) && !(h1 = '2' && h2 = '5') then
        .error ("invalid URL escape " ++ quote [c, h1, h2])
      else if mode = .encodeZone && !(h1 = '2' && h2 = '5')
          && unhex h1 * 16 + unhex h2 != 32
          && shouldEscapeHost (Char.ofNat (unhex h1 * 16 + unhex h2)) then
        .error ("invalid URL escape " ++ quote [c, h1, h2])
      else (unescape mode tl).map (fun t => Char.ofNat (unhex h1 * 16 + unhex h2) :: t)
    else if (mode = .encodeHost || mode = .encodeZone) && decide (c.toNat < 128)
        && shouldEscapeHost c then
      .error ("invalid character " ++ quote [c] ++ " in host name")
    else (unescape mode (h1 :: h2 :: tl)).map (fun t => c :: t)

/-- Go `validOptionalPort`: empty, or a colon followed by digits only. -/
def validOptionalPort : Str → Bool
  | [] => true
  | c :: ds => c = ':' && ds.all isDigit

/-- Go `parseHost`. -/
def parseHost (host : Str) : Except String Str :=
  if host.head? = some '[' then
    if !host.contains ']' then .error "missing ']' in host"
    else if !validOptionalPort (afterLast ']' host) then
      .error ("invalid port " ++ quote (afterLast ']' host) ++ " after host")
    else
      match splitAtSub ['%', '2', '5'] (beforeLast ']' host) with
      | some (h1, z) => do
        let host1 ← unescape .encodeHost h1
        let host2 ← unescape .encodeZone z
        let host3 ← unescape .encodeHost (fromLast ']' host)
        pure (host1 ++ host2 ++ host3)
      | none => unescape .encodeHost host
  else if host.contains ':' && !validOptionalPort (fromLast ':' host) then
    .error ("invalid port " ++ quote (fromLast ':' host) ++ " after host")
  else unescape .encodeHost host

/-- Go `validUserinfo`. -/
def validUserinfo (s : Str) : Bool :=
  s.all (fun r => isLetter r || isDigit r ||
    ['-', '.', '_', ':', '~', '!', '$', '&', Char.ofNat 39, '(', ')', '*', '+', ',', ';',
      '=', '%', '@'].contains r)

/-- Go `parseAuthority`: the optional userinfo before the last `@`, and the
host after it. -/
def parseAuthority (authority : Str) : Except String (Option Userinfo × Str) :=
  if !authority.contains '@' then do
    let host ← parseHost authority
    pure (none, host)
  else do
    let host ← parseHost (afterLast '@' authority)
    let userinfo := beforeLast '@' authority
    if !validUserinfo userinfo then .error "net/url: invalid userinfo"
    else if !userinfo.contains ':' then do
      let u ← unescape .encodeUserPassword userinfo
      pure (some ⟨String.mk u, none⟩, host)
    else do
      let u ← unescape .encodeUserPassword (before ':' userinfo)
      let p ← unescape .encodeUserPassword (after ':' userinfo)
      pure (some ⟨String.mk u, some (String.mk p)⟩, host)

/-- Go `parse(rawURL, viaRequest)` at `viaRequest = false`, as `Parse` calls
it. -/
def parseNoFrag (rawURL : Str) : Except String URL :=
  if stringContainsCTLByte rawURL then
    .error "net/url: invalid control character in URL"
  else if rawURL = ['*'] then .ok { Path := "*" }
  else do
    let (scheme0, rest0) ← getScheme rawURL
    let scheme := scheme0.map Char.toLower
    let forceQuery := rest0.getLast? = some '?' && rest0.count '?' = 1
    let rest := if forceQuery then rest0.dropLast else before '?' rest0
    let rawQuery := if forceQuery then [] else after '?' rest0
    if rest.head? != some '/' && !scheme.isEmpty then
      -- rootless paths are taken as opaque
      pure { Scheme := String.mk scheme, Opaque := String.mk rest,
             ForceQuery := forceQuery, RawQuery := String.mk rawQuery }
    else if rest.head? != some '/' && (before '/' rest).contains ':' then
      .error "first path segment in URL cannot contain colon"
    else if (!scheme.isEmpty || !(['/', '/', '/'].isPrefixOf rest))
        && ['/', '/'].isPrefixOf rest then do
      let authority := before '/' (rest.drop 2)
      let (user, host) ← parseAuthority authority
      let path ← unescape .encodePath (fromSep '/' (rest.drop 2))
      pure { Scheme := String.mk scheme, User := user, Host := String.mk host,
             Path := String.mk path, ForceQuery := forceQuery,
             RawQuery := String.mk rawQuery }
    else do
      let path ← unescape .encodePath rest
      pure { Scheme := String.mk scheme, Path := String.mk path,
             ForceQuery := forceQuery, RawQuery := String.mk rawQuery,
             OmitHost := !scheme.isEmpty && rest.head? = some '/' }

/-- Go `url.Parse`: cut off the fragment, parse the rest, then decode the
fragment. Errors are wrapped as `parse <quoted url>: <cause>`. -/
def Parse (rawURL : String) : Except String URL :=
  let u := before '#' rawURL.data
  let frag := after '#' rawURL.data
  match parseNoFrag u with
  | .error e => .error ("parse " ++ quote u ++ ": " ++ e)
  | .ok url =>
    if frag.isEmpty then .ok url
    else
      match unescape .encodeFragment frag with
      | .error e => .error ("parse " ++ quote rawURL.data ++ ": " ++ e)
      | .ok f => .ok { url with Fragment := String.mk f }

/-- Characters of a DNS host name or an IPv4 address: letters, digits, hyphen
and dot. -/
def isHostNameChar (c : Char) : Bool := isLetter c || isDigit c || c = '-' || c = '.'

end Url


open Url (URL)

/-! ## Data model -/

/-- Go `http.MethodConnect`. -/
def MethodConnect : String := "CONNECT"

/-- Go `http.StatusOK`. -/
def StatusOK : Int := 200

/-- Go `http.StatusInternalServerError`. -/
def StatusInternalServerError : Int := 500

/-- Go `validHeaderFieldByte`: letters, digits and the other token characters
of a header field name. -/
def validHeaderFieldByte (c : Char) : Bool :=
  Url.isLetter c || Url.isDigit c ||
    ['!', '#', '$', '%', '&', Char.ofNat 39, '*', '+', '-', '.', '^', '_', Char.ofNat 96,
      '|', '~'].contains c

/-- The canonicalising loop of Go `canonicalMIMEHeaderKey`: upper case at the
start and after each hyphen, lower case elsewhere. -/
def canonicalFrom : Bool → Str → Str
  | _, [] => []
  | upper, c :: cs =>
    (if upper then c.toUpper else c.toLower) ::
      canonicalFrom ((if upper then c.toUpper else c.toLower) = '-') cs

/-- Go `textproto.CanonicalMIMEHeaderKey`: a key that holds a byte that is not
a header-field byte is returned unchanged. -/
def CanonicalMIMEHeaderKey (s : String) : String :=
  if s.data.all validHeaderFieldByte then String.mk (canonicalFrom true s.data) else s

/-- Go `http.Header`: a map from header name to the list of its values, as an
association list; for a response header the list order is the order in which
`range` visits the map. -/
abbrev Header := List (String × List String)

/-- The fields of `http.Request` that the handlers read. -/
structure Request where
  Method : String
  URL : String
  Host : String
  deriving DecidableEq, Repr

/-- The fields of `http.Response` that the handlers read; `Body` is the byte
content of the body stream up to its end. -/
structure Response where
  StatusCode : Int
  Header : Header
  Body : List UInt8
  deriving DecidableEq, Repr

/-- A network connection object: the one `net.Dial(network, address)` returned,
or the client connection `Hijack` returned. -/
inductive Conn
  | dialed (network address : String)
  | hijacked
  deriving DecidableEq, Repr

/-- A call the handler makes on the response writer, on a connection, on the
transport, or on a diagnostic output, in program order. -/
inductive Event
  /-- Go `fmt.Println(s)` -/
  | stdoutPrintln (s : String)
  /-- Go `r.Write(os.Stdout)` -/
  | stdoutRequest
  /-- Go `log.Println` / `log.Printf` -/
  | log (msg : String)
  /-- Go `w.Header().Set(k, v)` -/
  | headerSet (k v : String)
  /-- Go `w.Header().Add(k, v)` -/
  | headerAdd (k v : String)
  /-- Go `w.WriteHeader(code)` -/
  | writeHeader (code : Int)
  /-- Go `fmt.Fprintln(w, s)` -/
  | writeText (s : String)
  /-- Bytes that `io.Copy(w, resp.Body)` wrote to `w`. -/
  | writeBody (bytes : List UInt8)
  /-- Go `net.Dial(network, address)` -/
  | dial (network address : String)
  /-- Go `r.Write(c)` -/
  | writeRequest (c : Conn)
  /-- Go `http.ReadResponse(bufio.NewReader(c), r)` -/
  | readResponse (c : Conn)
  /-- Go `h.Hijack()` -/
  | hijack
  /-- Go `c.Close()` -/
  | close (c : Conn)
  /-- Go `go func() { ... }()`: the relay task over `upstream` and `client` is started -/
  | goRelay (upstream client : Conn)
  /-- Go `t.RoundTrip(r)` -/
  | roundTrip
  /-- Go `panic("invalid WriteHeader code ...")` raised inside `w.WriteHeader(code)`:
  the handler is left, after its deferred calls, and the server closes the
  client connection. -/
  | panic (code : Int)
  /-- Deferred `resp.Body.Close()` -/
  | bodyClose
  deriving DecidableEq, Repr

/-- Outcomes of the external calls of one request. -/
structure World where
  /-- Go `ph.pacRunner.FindProxyForURL(r.URL)` -/
  FindProxyForURL : String → Except String String
  /-- Go `net.Dial(network, address)`: success or the error text -/
  Dial : String → String → Except String Unit
  /-- Go `http.ReadResponse(bufio.NewReader(c), r)` -/
  ReadResponse : Conn → Request → Except String Response
  /-- Whether `w.(http.Hijacker)` succeeds -/
  isHijacker : Bool
  /-- Go `h.Hijack()`: success or the error text -/
  Hijack : Except String Unit
  /-- Go `(&http.Transport(Proxy: proxyFunc)).RoundTrip(r)` -/
  RoundTrip : (Request → Except String (Option URL)) → Request → Except String Response
  /-- Go `io.Copy(w, resp.Body)`: `none` when the copy reaches the end of the body,
  or the number of bytes written before the error and the error text -/
  copyFailure : Option (Nat × String)

/-! ## Go library calls -/

/-- Go `checkWriteHeaderCode` of `net/http`: `w.WriteHeader(code)` returns only
for a three-digit code and panics for any other. -/
def validWriteHeaderCode (code : Int) : Bool := decide (100 ≤ code) && decide (code ≤ 999)

/-- The codes that `response.WriteHeader` of `net/http` sends at once as an
informational status line, leaving the response itself unstarted: 1xx other
than 101. -/
def informational (code : Int) : Bool :=
  decide (100 ≤ code) && decide (code ≤ 199) && decide (code ≠ 101)

/-- The codes that `response.WriteHeader` takes as the status of the response:
101 and 200 to 999. -/
def finalStatus (code : Int) : Bool := validWriteHeaderCode code && !informational code

/-- Go `http.Error(w, error, code)`: sets two headers, writes the status,
prints the message.  The handlers pass the code 500, which
`checkWriteHeaderCode` accepts. -/
def httpError (error : String) (code : Int) : List Event :=
  [.headerSet "Content-Type" "text/plain; charset=utf-8",
   .headerSet "X-Content-Type-Options" "nosniff",
   .writeHeader code,
   .writeText error]

/-- Go `io.Copy(dst, src)` on a source whose content is `src`: the bytes
written and the error.  With no failure the copy ends at end-of-stream and has
written everything. -/
def ioCopy (src : List UInt8) : Option (Nat × String) → List UInt8 × Option String
  | none => (src, none)
  | some (n, e) => (src.take n, some e)

/-! ## The handlers of `proxy.go` -/

/-- Go `connect(w, r)`.  Its `WriteHeader` calls pass the constants 200 and 500,
which `checkWriteHeaderCode` accepts. -/
def connect (W : World) (r : Request) : List Event :=
  [.dial "tcp" r.Host] ++
  match W.Dial "tcp" r.Host with
  | .error err => httpError err StatusInternalServerError
  | .ok () =>
    if !W.isHijacker then
      httpError ("Can't hijack connection to " ++ r.Host) StatusInternalServerError
    else
      [.writeHeader StatusOK, .hijack] ++
      match W.Hijack with
      | .error _ =>
        [.log ("Error hijacking connection to " ++ r.Host), .close (.dialed "tcp" r.Host)]
      | .ok () => [.goRelay (.dialed "tcp" r.Host) .hijacked]

/-- Go `tunnel(w, r, proxy)`.  `w.WriteHeader(res.StatusCode)` panics on a code
that `checkWriteHeaderCode` refuses, and `tunnel` is left there. -/
def tunnel (W : World) (r : Request) (proxy : String) : List Event :=
  match Url.Parse proxy with
  | .error err => httpError err StatusInternalServerError
  | .ok proxyUrl =>
    [.dial "tcp" proxyUrl.Host] ++
    match W.Dial "tcp" proxyUrl.Host with
    | .error err => httpError err StatusInternalServerError
    | .ok () =>
      [.writeRequest (.dialed "tcp" proxyUrl.Host),
       .readResponse (.dialed "tcp" proxyUrl.Host)] ++
      match W.ReadResponse (.dialed "tcp" proxyUrl.Host) r with
      | .error err => httpError err StatusInternalServerError
      | .ok res =>
        if !W.isHijacker then
          httpError ("Can't hijack connection to " ++ r.Host) StatusInternalServerError
        else
          [.writeHeader res.StatusCode] ++
          if !validWriteHeaderCode res.StatusCode then [.panic res.StatusCode]
          else if res.StatusCode ≠ StatusOK then []
          else
            [.hijack] ++
            match W.Hijack with
            | .error _ =>
              [.log ("Error hijacking connection to " ++ r.Host),
               .close (.dialed "tcp" proxyUrl.Host)]
            | .ok () => [.goRelay (.dialed "tcp" proxyUrl.Host) .hijacked]

/-- The closure `proxyFunc` of Go `direct`, with the captured `proxy` made a
parameter. -/
def proxyFunc (proxy : String) (_r : Request) : Except String (Option URL) :=
  if proxy = "DIRECT" then .ok none
  else (Url.Parse proxy).map some

/-- The header-copy loop of Go `direct`: one `Add` per value, names in map
order, values of a name in their order. -/
def copyHeader (h : Header) : List Event :=
  h.flatMap (fun kvs => kvs.2.map (fun v => Event.headerAdd kvs.1 v))

/-- Go `direct(w, r, proxy)`.  `w.WriteHeader(resp.StatusCode)` panics on a code
that `checkWriteHeaderCode` refuses: the deferred `resp.Body.Close()` runs and
`direct` is left without copying the body. -/
def direct (W : World) (r : Request) (proxy : String) : List Event :=
  [.log ("direct: r.url = " ++ r.URL ++ "\n"), .roundTrip] ++
  match W.RoundTrip (proxyFunc proxy) r with
  | .error err => httpError err StatusInternalServerError
  | .ok resp =>
    copyHeader resp.Header ++
    [.writeHeader resp.StatusCode] ++
    if !validWriteHeaderCode resp.StatusCode then [.bodyClose, .panic resp.StatusCode]
    else
      [.writeBody (ioCopy resp.Body W.copyFailure).1] ++
      (match (ioCopy resp.Body W.copyFailure).2 with
       | some _ => [.log ("Error copying response body from " ++ r.Host)]
       | none => []) ++
      [.bodyClose]

/-- Go `proxyHandler.ServeHTTP(w, r)`.  Its own `WriteHeader` call passes the
constant 500, which `checkWriteHeaderCode` accepts. -/
def ServeHTTP (W : World) (r : Request) : List Event :=
  [.stdoutPrintln "dumping request:", .stdoutRequest] ++
  match W.FindProxyForURL r.URL with
  | .error err => [.log err, .writeHeader StatusInternalServerError]
  | .ok proxy =>
    if r.Method = MethodConnect then
      if proxy = "DIRECT" then connect W r
      else tunnel W r proxy
    else direct W r proxy

/-! ## The relay task

The anonymous function started with `go` in `connect` and in `tunnel`, and the
two `transfer` goroutines it starts, as an interleaving machine: a schedule
picks which goroutine takes its next step. -/

/-- How one `io.Copy(dst, src)` of `transfer` ends. -/
inductive CopyOutcome
  | eof
  | failed (err : String)
  deriving DecidableEq, Repr

/-- The goroutines of one relay: the relay task itself, `transfer(&wg, upstream,
client)` and `transfer(&wg, client, upstream)`. -/
inductive Tid
  | relay
  | toUpstream
  | toClient
  deriving DecidableEq, Repr

/-- Where the relay task stands. -/
inductive RelayPc
  /-- Both `Close` calls are deferred; `wg.Add(2)` is next. -/
  | start
  /-- Next is `go transfer(&wg, upstream, client)`. -/
  | added
  /-- Next is `go transfer(&wg, client, upstream)`. -/
  | spawned
  /-- At `wg.Wait()`. -/
  | waiting
  /-- The body has returned; the deferred `client.Close()` is next. -/
  | closingClient
  /-- The deferred `Close()` of the upstream connection is next. -/
  | closingUpstream
  | finished
  deriving DecidableEq, Repr

/-- Where a `transfer` goroutine stands. -/
inductive TransferPc
  /-- Its `go` statement has not run. -/
  | notStarted
  /-- Inside `io.Copy(dst, src)`; `wg.Done()` is deferred. -/
  | copying
  /-- Returned from `io.Copy`; the test `err != nil` is next. -/
  | copied
  /-- The body has returned; the deferred `wg.Done()` is next. -/
  | returning
  | finished
  deriving DecidableEq, Repr

/-- A call made by the relay task or by a `transfer` goroutine. -/
inductive RelayEvent
  /-- Go `wg.Add(n)` -/
  | wgAdd (n : Int)
  /-- Go `go transfer(...)` starting the goroutine `t` -/
  | goTransfer (t : Tid)
  /-- Go `io.Copy(dst, src)` returned in goroutine `t` -/
  | copyReturned (t : Tid) (o : CopyOutcome)
  /-- Go `log.Printf("Error copying from %v to %v", src, dst)` -/
  | logCopyError (src dst : Conn)
  /-- Go `wg.Done()` by goroutine `t` -/
  | wgDone (t : Tid)
  /-- Go `wg.Wait()` returned -/
  | waitReturned
  /-- Go `c.Close()` -/
  | close (c : Conn)
  deriving DecidableEq, Repr

/-- State of one relay: the three program counters, the counter of the
`sync.WaitGroup`, and the calls made so far. -/
structure RelayState where
  pc : RelayPc
  up : TransferPc
  down : TransferPc
  wg : Int
  trace : List RelayEvent
  deriving DecidableEq, Repr

/-- The relay when its `go` statement has just run. -/
def RelayState.init : RelayState :=
  { pc := .start, up := .notStarted, down := .notStarted, wg := 0, trace := [] }

/-- One step of Go `transfer(wg, dst, src)` from program counter `pc`, with the
outcome `o` of its copy: the new program counter, the change of the wait-group
counter and the calls made; `none` when the goroutine cannot step. -/
def transfer (t : Tid) (dst src : Conn) (o : CopyOutcome) :
    TransferPc → Option (TransferPc × Int × List RelayEvent)
  | .notStarted => none
  | .copying => some (.copied, 0, [.copyReturned t o])
  | .copied =>
    match o with
    | .failed _ => some (.returning, 0, [.logCopyError src dst])
    | .eof => some (.returning, 0, [])
  | .returning => some (.finished, -1, [.wgDone t])
  | .finished => none

/-- One step of the goroutine `t` of the relay over `upstream` and `client`,
where the copy towards the upstream ends with `oUp` and the copy towards the
client with `oDown`; `none` when `t` is not started, blocked or finished. -/
def relayStep (upstream client : Conn) (oUp oDown : CopyOutcome) (s : RelayState) :
    Tid → Option RelayState
  | .relay =>
    match s.pc with
    | .start => some { s with pc := .added, wg := s.wg + 2, trace := s.trace ++ [.wgAdd 2] }
    | .added =>
      some { s with pc := .spawned, up := .copying,
                    trace := s.trace ++ [.goTransfer .toUpstream] }
    | .spawned =>
      some { s with pc := .waiting, down := .copying,
                    trace := s.trace ++ [.goTransfer .toClient] }
    | .waiting =>
      if s.wg = 0 then some { s with pc := .closingClient, trace := s.trace ++ [.waitReturned] }
      else none
    | .closingClient =>
      some { s with pc := .closingUpstream, trace := s.trace ++ [.close client] }
    | .closingUpstream =>
      some { s with pc := .finished, trace := s.trace ++ [.close upstream] }
    | .finished => none
  | .toUpstream =>
    (transfer .toUpstream upstream client oUp s.up).map
      (fun x => { s with up := x.1, wg := s.wg + x.2.1, trace := s.trace ++ x.2.2 })
  | .toClient =>
    (transfer .toClient client upstream oDown s.down).map
      (fun x => { s with down := x.1, wg := s.wg + x.2.1, trace := s.trace ++ x.2.2 })

/-- The relay state after the goroutines took turns in the order `sched`; the
turn of a goroutine that cannot step is skipped. -/
def relayRun (upstream client : Conn) (oUp oDown : CopyOutcome) :
    List Tid → RelayState → RelayState
  | [], s => s
  | t :: ts, s =>
    match relayStep upstream client oUp oDown s t with
    | some s' => relayRun upstream client oUp oDown ts s'
    | none => relayRun upstream client oUp oDown ts s

/-- The connections closed so far, in order. -/
def closes : List RelayEvent → List Conn
  | [] => []
  | .close c :: t => c :: closes t
  | _ :: t => closes t

/-- Steps the three goroutines still have to take. -/
def RelayState.remaining (s : RelayState) : Nat :=
  (match s.pc with
    | .start => 6 | .added => 5 | .spawned => 4 | .waiting => 3
    | .closingClient => 2 | .closingUpstream => 1 | .finished => 0) +
  (match s.up with
    | .notStarted => 3 | .copying => 3 | .copied => 2 | .returning => 1 | .finished => 0) +
  (match s.down with
    | .notStarted => 3 | .copying => 3 | .copied => 2 | .returning => 1 | .finished => 0)

/-- The control part of a relay state: everything but the record of calls. -/
def RelayState.control (s : RelayState) : RelayPc × TransferPc × TransferPc × Int :=
  (s.pc, s.up, s.down, s.wg)

/-- Every `Close` recorded in `t` comes after the `wg.Done()` of both
`transfer` goroutines. -/
def ClosesAfterDone (t : List RelayEvent) : Prop :=
  ∀ pre c post, t = pre ++ RelayEvent.close c :: post →
    RelayEvent.wgDone .toUpstream ∈ pre ∧ RelayEvent.wgDone .toClient ∈ pre

/-- What holds of every reachable relay state: the wait-group counter counts
the started `transfer` goroutines that have not called `Done`, a goroutine is
started exactly when the relay task is past its `go` statement, the relay
task is past `wg.Wait()` only when both have called `Done`, and the record of
calls agrees with the program counters. -/
def RelayInv (upstream client : Conn) (s : RelayState) : Prop :=
  s.wg = (if s.pc = .start then 0 else 2) - (if s.up = .finished then 1 else 0)
      - (if s.down = .finished then 1 else 0)
    ∧ (s.up = .notStarted ↔ (s.pc = .start ∨ s.pc = .added))
    ∧ (s.down = .notStarted ↔ (s.pc = .start ∨ s.pc = .added ∨ s.pc = .spawned))
    ∧ ((s.pc = .closingClient ∨ s.pc = .closingUpstream ∨ s.pc = .finished) →
        s.up = .finished ∧ s.down = .finished)
    ∧ (RelayEvent.wgDone .toUpstream ∈ s.trace ↔ s.up = .finished)
    ∧ (RelayEvent.wgDone .toClient ∈ s.trace ↔ s.down = .finished)
    ∧ closes s.trace =
        (match s.pc with
          | .closingUpstream => [client]
          | .finished => [client, upstream]
          | _ => [])
    ∧ ClosesAfterDone s.trace

/-! ## Observations on a trace -/

/-- Status lines that the response writer of `net/http` puts on the client
connection for the calls of a trace, from the writer state `wroteHeader`
(the response has its status) and `hijacked` (the connection is detached):
* `WriteHeader(code)` does nothing on a detached connection or a started
  response, panics on a code outside 100..999, sends an informational code at
  once and leaves the response unstarted, and otherwise starts the response
  with `code`;
* a write of body text or bytes on an unstarted response starts it with 200;
* from a `Hijack` call on the writer no longer writes (the call detaches the
  connection, or fails because it is detached already);
* after a panic the server closes the connection and sends nothing more;
* when the handler returns with the response unstarted and the connection not
  detached, the server starts the response with 200. -/
def statusesFrom : Bool → Bool → List Event → List Int
  | wroteHeader, hijacked, [] => if wroteHeader || hijacked then [] else [200]
  | _, _, .panic _ :: _ => []
  | wroteHeader, _, .hijack :: t => statusesFrom wroteHeader true t
  | wroteHeader, hijacked, .writeHeader c :: t =>
    if hijacked || wroteHeader || !validWriteHeaderCode c then
      statusesFrom wroteHeader hijacked t
    else if informational c then c :: statusesFrom false hijacked t
    else c :: statusesFrom true hijacked t
  | wroteHeader, hijacked, .writeText _ :: t =>
    if hijacked || wroteHeader then statusesFrom wroteHeader hijacked t
    else 200 :: statusesFrom true hijacked t
  | wroteHeader, hijacked, .writeBody _ :: t =>
    if hijacked || wroteHeader then statusesFrom wroteHeader hijacked t
    else 200 :: statusesFrom true hijacked t
  | wroteHeader, hijacked, _ :: t => statusesFrom wroteHeader hijacked t

/-- Status codes the client receives for the calls of a handler trace, in
order, from a fresh response writer. -/
def statuses (t : List Event) : List Int := statusesFrom false false t

/-- Whether the event touches a target or upstream connection, or detaches the
client connection. -/
def Event.isConnEffect : Event → Bool
  | .dial _ _ => true
  | .writeRequest _ => true
  | .readResponse _ => true
  | .hijack => true
  | .close _ => true
  | .goRelay _ _ => true
  | .roundTrip => true
  | _ => false

/-- Whether the event writes to the client through the response writer
(headers, status, or body text). -/
def Event.isClientWrite : Event → Bool
  | .headerSet _ _ => true
  | .headerAdd _ _ => true
  | .writeHeader _ => true
  | .writeText _ => true
  | .writeBody _ => true
  | _ => false

/-- Status lines the client receives when the handler passes `code` to one
`WriteHeader` call on a fresh response writer and then returns or writes the
body: none when the call panics, the code followed by the 200 of the response
proper when the code is informational, the code alone otherwise. -/
def statusLines (code : Int) : List Int :=
  if !validWriteHeaderCode code then []
  else if informational code then [code, 200]
  else [code]

/-- Status the specification (§6) says the client sees, from the outcomes of
the external calls: 500 for a resolver, URL parse, dial, upstream response
parse, hijack-capability or round-trip failure; 200 for an accepted direct
CONNECT; the upstream's own status otherwise. -/
def specStatus (W : World) (r : Request) : Int :=
  match W.FindProxyForURL r.URL with
  | .error _ => 500
  | .ok proxy =>
    if r.Method = "CONNECT" then
      if proxy = "DIRECT" then
        match W.Dial "tcp" r.Host with
        | .error _ => 500
        | .ok () => if W.isHijacker then 200 else 500
      else
        match Url.Parse proxy with
        | .error _ => 500
        | .ok u =>
          match W.Dial "tcp" u.Host with
          | .error _ => 500
          | .ok () =>
            match W.ReadResponse (.dialed "tcp" u.Host) r with
            | .error _ => 500
            | .ok res => if W.isHijacker then res.StatusCode else 500
    else
      match W.RoundTrip (proxyFunc proxy) r with
      | .error _ => 500
      | .ok resp => resp.StatusCode

/-! ## Sample inputs -/

/-- The `CONNECT example.com:443` request of the specification's scenarios. -/
def sampleConnect : Request :=
  { Method := "CONNECT", URL := "//example.com:443", Host := "example.com:443" }

/-- The `GET http://example.com/` request of the specification's scenarios. -/
def sampleGet : Request :=
  { Method := "GET", URL := "http://example.com/", Host := "example.com" }

/-- A response with two header names, one of them repeated, and a body. -/
def sampleResponse (status : Int) : Response :=
  { StatusCode := status,
    Header := [("Set-Cookie", ["a=1", "b=2"]), ("Content-Type", ["text/plain"])],
    Body := [104, 105] }

/-- A world in which the resolver answers `directive`, every dial, read,
round trip and copy succeeds with status `status`, and the response writer
supports hijacking with outcome `hijack`. -/
def sampleWorld (directive : Except String String) (status : Int)
    (hijack : Except String Unit) : World :=
  { FindProxyForURL := fun _ => directive,
    Dial := fun _ _ => .ok (),
    ReadResponse := fun _ _ => .ok (sampleResponse status),
    isHijacker := true,
    Hijack := hijack,
    RoundTrip := fun _ _ => .ok (sampleResponse status),
    copyFailure := none }

/-- The sample world with a response writer that does not support hijacking. -/
def noHijackerWorld (directive : Except String String) : World :=
  { sampleWorld directive 200 (.ok ()) with isHijacker := false }

/-- The sample world with an upstream whose CONNECT response does not parse. -/
def badUpstreamWorld (directive : Except String String) : World :=
  { sampleWorld directive 200 (.ok ()) with
    ReadResponse := fun _ _ => .error "malformed HTTP response" }

/-! ## Shared lemmas -/

/-! ### `url.Parse` on the two directive forms -/

namespace Url

theorem before_of_not_mem (sep : Char) (s : Str) (h : sep ∉ s) : before sep s = s := by
  unfold before
  rw [List.takeWhile_eq_self_iff]
  intro c hc
  simp only [bne_iff_ne, ne_eq]
  rintro rfl
  exact h hc

theorem fromSep_of_not_mem (sep : Char) (s : Str) (h : sep ∉ s) : fromSep sep s = [] := by
  unfold fromSep
  rw [List.dropWhile_eq_nil_iff]
  intro c hc
  simp only [bne_iff_ne, ne_eq]
  rintro rfl
  exact h hc

theorem after_of_not_mem (sep : Char) (s : Str) (h : sep ∉ s) : after sep s = [] := by
  unfold after
  rw [fromSep_of_not_mem sep s h]
  rfl

theorem before_append_sep (sep : Char) (a b : Str) (h : sep ∉ a) :
    before sep (a ++ sep :: b) = a := by
  unfold before
  induction a with
  | nil => simp
  | cons c t ih =>
    have hc : c ≠ sep := fun e => h (e ▸ List.mem_cons_self _ _)
    have ht : sep ∉ t := fun e => h (List.mem_cons_of_mem _ e)
    simp [List.takeWhile_cons, hc, ih ht]

theorem afterLast_append_sep (sep : Char) (a b : Str) (h : sep ∉ b) :
    afterLast sep (a ++ sep :: b) = b := by
  unfold afterLast
  have : (a ++ sep :: b).reverse = b.reverse ++ sep :: a.reverse := by simp
  rw [this, before_append_sep sep _ _ (by simpa using h)]
  simp

theorem hostNameChar_facts (c : Char) (h : isHostNameChar c = true) :
    c ≠ '%' ∧ c ≠ '#' ∧ c ≠ '?' ∧ c ≠ '/' ∧ c ≠ '@' ∧ c ≠ ':' ∧ c ≠ '[' ∧ c ≠ '*'
      ∧ shouldEscapeHost c = false ∧ ¬ c.toNat < 32 ∧ c.toNat ≠ 127 := by
  refine ⟨?_, ?_, ?_, ?_, ?_, ?_, ?_, ?_, ?_, ?_, ?_⟩
  · rintro rfl; revert h; decide
  · rintro rfl; revert h; decide
  · rintro rfl; revert h; decide
  · rintro rfl; revert h; decide
  · rintro rfl; revert h; decide
  · rintro rfl; revert h; decide
  · rintro rfl; revert h; decide
  · rintro rfl; revert h; decide
  · simp only [isHostNameChar, Bool.or_eq_true, decide_eq_true_eq] at h
    simp only [shouldEscapeHost, Bool.not_eq_false', Bool.or_eq_true]
    rcases h with ((h | h) | h) | h
    · exact Or.inl (Or.inl (Or.inl h))
    · exact Or.inl (Or.inl (Or.inr h))
    · subst h; decide
    · subst h; decide
  · simp only [isHostNameChar, isLetter, isDigit, Bool.or_eq_true, Bool.and_eq_true,
      decide_eq_true_eq] at h
    rcases h with (((h | h) | h) | h) | h
    · omega
    · omega
    · omega
    · subst h; decide
    · subst h; decide
  · simp only [isHostNameChar, isLetter, isDigit, Bool.or_eq_true, Bool.and_eq_true,
      decide_eq_true_eq] at h
    rcases h with (((h | h) | h) | h) | h
    · omega
    · omega
    · omega
    · subst h; decide
    · subst h; decide

theorem unescape_host_id (s : Str)
    (h : ∀ c ∈ s, c ≠ '%' ∧ shouldEscapeHost c = false) :
    unescape .encodeHost s = .ok s := by
  induction s with
  | nil => rfl
  | cons c t ih =>
    have hc := h c (List.mem_cons_self _ _)
    have ht := ih (fun x hx => h x (List.mem_cons_of_mem _ hx))
    match t, ht with
    | [], _ => simp [unescape, hc.1, hc.2]
    | [d], ht =>
      rw [unescape, ht]
      simp [hc.1, hc.2, Except.map]
    | h1 :: h2 :: tl, ht =>
      rw [unescape, ht]
      simp [hc.1, hc.2, Except.map]

theorem digit_hostNameChar (c : Char) (h : isDigit c = true) : isHostNameChar c = true := by
  simp [isHostNameChar, h]

/-- The characters after `http://` in a directive `http://<host>:<port>`. -/
theorem hostport_facts (host port : Str)
    (hh : ∀ c ∈ host, isHostNameChar c = true) (hp : ∀ c ∈ port, isDigit c = true) :
    ∀ c ∈ host ++ ':' :: port,
      c ≠ '%' ∧ c ≠ '#' ∧ c ≠ '?' ∧ c ≠ '/' ∧ c ≠ '@' ∧ c ≠ '[' ∧ c ≠ '*'
        ∧ shouldEscapeHost c = false ∧ ¬ c.toNat < 32 ∧ c.toNat ≠ 127 := by
  intro c hc
  rw [List.mem_append, List.mem_cons] at hc
  rcases hc with hc | rfl | hc
  · have := hostNameChar_facts c (hh c hc); tauto
  · decide
  · have := hostNameChar_facts c (digit_hostNameChar c (hp c hc)); tauto

theorem parseHost_hostport (host port : Str)
    (hh : ∀ c ∈ host, isHostNameChar c = true) (hp : ∀ c ∈ port, isDigit c = true) :
    parseHost (host ++ ':' :: port) = .ok (host ++ ':' :: port) := by
  have hf := hostport_facts host port hh hp
  have hcolon : ':' ∉ port := fun hm => by
    have := (hostNameChar_facts _ (digit_hostNameChar _ (hp _ hm))).2.2.2.2.2.1
    exact this rfl
  have hhead : (host ++ ':' :: port).head? ≠ some '[' := by
    intro he
    have hm : '[' ∈ host ++ ':' :: port := List.mem_of_mem_head? he
    exact (hf _ hm).2.2.2.2.2.1 rfl
  have hport : validOptionalPort (fromLast ':' (host ++ ':' :: port)) = true := by
    unfold fromLast
    rw [afterLast_append_sep _ _ _ hcolon]
    simpa [validOptionalPort] using hp
  unfold parseHost
  rw [if_neg hhead]
  simp only [hport, Bool.not_true, Bool.and_false, Bool.false_eq_true, if_false]
  exact unescape_host_id _ (fun c hc => ⟨(hf c hc).1, (hf c hc).2.2.2.2.2.2.2.1⟩)

theorem getScheme_http (r : Str) :
    getScheme ('h' :: 't' :: 't' :: 'p' :: ':' :: r) = .ok (['h', 't', 't', 'p'], r) := by
  rfl

theorem parseNoFrag_http_of (b : Str)
    (hctl : stringContainsCTLByte b = false)
    (hq : '?' ∉ b) (hs : '/' ∉ b) (hat : '@' ∉ b) (hph : parseHost b = .ok b) :
    parseNoFrag ('h' :: 't' :: 't' :: 'p' :: ':' :: '/' :: '/' :: b) =
      .ok { Scheme := "http", Host := String.mk b } := by
  have h1 : stringContainsCTLByte ('h' :: 't' :: 't' :: 'p' :: ':' :: '/' :: '/' :: b) = false := by
    have : stringContainsCTLByte ['h', 't', 't', 'p', ':', '/', '/'] = false := by decide
    have happ : ('h' :: 't' :: 't' :: 'p' :: ':' :: '/' :: '/' :: b) =
        ['h', 't', 't', 'p', ':', '/', '/'] ++ b := rfl
    rw [happ]
    unfold stringContainsCTLByte at this hctl ⊢
    rw [List.any_append, this, hctl]
    rfl
  have hq' : '?' ∉ '/' :: '/' :: b := by simp [hq]
  have hlast : ('/' :: '/' :: b).getLast? ≠ some '?' := by
    intro he
    exact hq' (List.mem_of_getLast?_eq_some he)
  have hb : before '?' ('/' :: '/' :: b) = '/' :: '/' :: b := before_of_not_mem _ _ hq'
  have ha : after '?' ('/' :: '/' :: b) = [] := after_of_not_mem _ _ hq'
  have hauth : before '/' b = b := before_of_not_mem _ _ hs
  have hpath : fromSep '/' b = [] := fromSep_of_not_mem _ _ hs
  have hpa : parseAuthority b = .ok (none, b) := by
    unfold parseAuthority
    have : b.contains '@' = false := by simpa using hat
    simp only [this, Bool.not_false, if_true, hph]
    rfl
  have hlow : List.map Char.toLower ['h', 't', 't', 'p'] = ['h', 't', 't', 'p'] := by decide
  unfold parseNoFrag
  rw [if_neg (by simp [h1]), if_neg (by simp), getScheme_http]
  simp only [bind, Except.bind, hlow, hlast]
  simp [hb, ha, hauth, hpath, hpa, unescape, pure, Except.pure]

theorem Parse_http_hostport (host port : String)
    (hh : ∀ c ∈ host.data, isHostNameChar c = true)
    (hp : ∀ c ∈ port.data, isDigit c = true) :
    Parse ("http://" ++ host ++ ":" ++ port) =
      .ok { Scheme := "http", Host := host ++ ":" ++ port } := by
  have hf := hostport_facts host.data port.data hh hp
  have hraw : ("http://" ++ host ++ ":" ++ port).data =
      'h' :: 't' :: 't' :: 'p' :: ':' :: '/' :: '/' :: (host.data ++ ':' :: port.data) := by
    simp [String.data_append]
  have hhost : host ++ ":" ++ port = String.mk (host.data ++ ':' :: port.data) := by
    apply String.ext
    simp [String.data_append]
  have hfrag : '#' ∉ ("http://" ++ host ++ ":" ++ port).data := by
    rw [hraw]
    intro hm
    simp only [List.mem_cons] at hm
    rcases hm with h | h | h | h | h | h | h | h
    all_goals first | exact absurd h (by decide) | exact (hf _ h).2.1 rfl
  have hctl : stringContainsCTLByte (host.data ++ ':' :: port.data) = false := by
    unfold stringContainsCTLByte
    rw [List.any_eq_false]
    intro c hc
    have := hf c hc
    simp [this.2.2.2.2.2.2.2.2.1, this.2.2.2.2.2.2.2.2.2]
  rw [hraw] at hfrag
  unfold Parse
  simp only [hraw, before_of_not_mem _ _ hfrag, after_of_not_mem _ _ hfrag]
  rw [parseNoFrag_http_of _ hctl (fun h => (hf _ h).2.2.1 rfl) (fun h => (hf _ h).2.2.2.1 rfl)
    (fun h => (hf _ h).2.2.2.2.1 rfl) (parseHost_hostport _ _ hh hp)]
  simp [hhost]

theorem getScheme_PROXY (b : Str) :
    getScheme ('P' :: 'R' :: 'O' :: 'X' :: 'Y' :: ' ' :: b) =
      .ok ([], 'P' :: 'R' :: 'O' :: 'X' :: 'Y' :: ' ' :: b) := by
  rfl

theorem parseNoFrag_PROXY (b : Str) (url : URL)
    (h : parseNoFrag ('P' :: 'R' :: 'O' :: 'X' :: 'Y' :: ' ' :: b) = .ok url) :
    url.Host = "" := by
  unfold parseNoFrag at h
  split at h
  · cases h
  · rw [if_neg (by simp), getScheme_PROXY] at h
    simp only [bind, Except.bind, List.map_nil, List.isEmpty_nil, Bool.not_true,
      Bool.and_false, Bool.false_eq_true, if_false, Bool.false_or] at h
    generalize hfq : (('P' :: 'R' :: 'O' :: 'X' :: 'Y' :: ' ' :: b).getLast? = some '?' &&
      decide (List.count '?' ('P' :: 'R' :: 'O' :: 'X' :: 'Y' :: ' ' :: b) = 1)) = fq at h
    have hrest : ∃ r, (if fq = true then ('P' :: 'R' :: 'O' :: 'X' :: 'Y' :: ' ' :: b).dropLast
        else before '?' ('P' :: 'R' :: 'O' :: 'X' :: 'Y' :: ' ' :: b)) = 'P' :: r := by
      cases fq
      · exact ⟨before '?' ('R' :: 'O' :: 'X' :: 'Y' :: ' ' :: b),
          by simp [before, List.takeWhile_cons]⟩
      · exact ⟨('R' :: 'O' :: 'X' :: 'Y' :: ' ' :: b).dropLast, by simp [List.dropLast]⟩
    obtain ⟨r, hr⟩ := hrest
    rw [hr] at h
    split at h
    · cases h
    · have hpre : ['/', '/'].isPrefixOf ('P' :: r) = false := by simp [List.isPrefixOf]
      simp only [hpre, Bool.and_false, Bool.false_eq_true, if_false] at h
      split at h
      · cases h
      · simp only [pure, Except.pure, Except.ok.injEq] at h
        rw [← h]

theorem Parse_PROXY (s : String) (url : URL) (h : Parse ("PROXY " ++ s) = .ok url) :
    url.Host = "" := by
  have hraw : ("PROXY " ++ s).data = 'P' :: 'R' :: 'O' :: 'X' :: 'Y' :: ' ' :: s.data := by
    simp [String.data_append]
  have hbefore : before '#' ('P' :: 'R' :: 'O' :: 'X' :: 'Y' :: ' ' :: s.data) =
      'P' :: 'R' :: 'O' :: 'X' :: 'Y' :: ' ' :: before '#' s.data := by
    simp [before, List.takeWhile_cons]
  unfold Parse at h
  simp only [hraw, hbefore] at h
  split at h
  · cases h
  · rename_i u0 hu0
    have hhost := parseNoFrag_PROXY _ _ hu0
    split at h
    · cases h; exact hhost
    · split at h
      · cases h
      · cases h; exact hhost

end Url

/-! ### Header maps -/

theorem toNat_ofNat_small (n : Nat) (h : n < 128) : (Char.ofNat n).toNat = n := by
  have hv : n.isValidChar := Or.inl (by omega)
  simp only [Char.ofNat, hv, dite_true, Char.ofNatAux, Char.toNat, UInt32.toNat]
  rfl

theorem toUpper_cases (c : Char) :
    (97 ≤ c.toNat ∧ c.toNat ≤ 122 ∧ c.toUpper.toNat = c.toNat - 32) ∨
      (¬ (97 ≤ c.toNat ∧ c.toNat ≤ 122) ∧ c.toUpper = c) := by
  unfold Char.toUpper
  by_cases h : c.toNat ≥ 97 ∧ c.toNat ≤ 122
  · left
    refine ⟨h.1, h.2, ?_⟩
    rw [if_pos h]
    exact toNat_ofNat_small _ (by omega)
  · right
    exact ⟨h, if_neg h⟩

theorem toLower_cases (c : Char) :
    (65 ≤ c.toNat ∧ c.toNat ≤ 90 ∧ c.toLower.toNat = c.toNat + 32) ∨
      (¬ (65 ≤ c.toNat ∧ c.toNat ≤ 90) ∧ c.toLower = c) := by
  unfold Char.toLower
  by_cases h : c.toNat ≥ 65 ∧ c.toNat ≤ 90
  · left
    refine ⟨h.1, h.2, ?_⟩
    rw [if_pos h]
    exact toNat_ofNat_small _ (by omega)
  · right
    exact ⟨h, if_neg h⟩

theorem toUpper_idem (c : Char) : c.toUpper.toUpper = c.toUpper := by
  rcases toUpper_cases c with ⟨h1, h2, h3⟩ | ⟨_, h⟩
  · rcases toUpper_cases c.toUpper with ⟨h4, _, _⟩ | ⟨_, h'⟩
    · omega
    · exact h'
  · rw [h, h]

theorem toLower_idem (c : Char) : c.toLower.toLower = c.toLower := by
  rcases toLower_cases c with ⟨h1, h2, h3⟩ | ⟨_, h⟩
  · rcases toLower_cases c.toLower with ⟨_, h4, _⟩ | ⟨_, h'⟩
    · omega
    · exact h'
  · rw [h, h]

theorem canonicalFrom_idem (upper : Bool) (l : Str) :
    canonicalFrom upper (canonicalFrom upper l) = canonicalFrom upper l := by
  induction l generalizing upper with
  | nil => rfl
  | cons c cs ih =>
    cases upper
    · simp only [canonicalFrom, Bool.false_eq_true, if_false, toLower_idem, ih]
    · simp only [canonicalFrom, if_true, toUpper_idem, ih]

theorem valid_toUpper (c : Char) (h : validHeaderFieldByte c = true) :
    validHeaderFieldByte c.toUpper = true := by
  rcases toUpper_cases c with ⟨h1, h2, h3⟩ | ⟨_, h'⟩
  · simp only [validHeaderFieldByte, Url.isLetter, Bool.or_eq_true, Bool.and_eq_true,
      decide_eq_true_eq]
    left; left; right
    omega
  · rw [h']; exact h

theorem valid_toLower (c : Char) (h : validHeaderFieldByte c = true) :
    validHeaderFieldByte c.toLower = true := by
  rcases toLower_cases c with ⟨h1, h2, h3⟩ | ⟨_, h'⟩
  · simp only [validHeaderFieldByte, Url.isLetter, Bool.or_eq_true, Bool.and_eq_true,
      decide_eq_true_eq]
    left; left; left
    omega
  · rw [h']; exact h

theorem valid_canonicalFrom (upper : Bool) (l : Str)
    (h : l.all validHeaderFieldByte = true) :
    (canonicalFrom upper l).all validHeaderFieldByte = true := by
  induction l generalizing upper with
  | nil => rfl
  | cons c cs ih =>
    simp only [List.all_cons, Bool.and_eq_true] at h
    cases upper
    · simp only [canonicalFrom, Bool.false_eq_true, if_false, List.all_cons, Bool.and_eq_true]
      exact ⟨valid_toLower c h.1, ih _ h.2⟩
    · simp only [canonicalFrom, if_true, List.all_cons, Bool.and_eq_true]
      exact ⟨valid_toUpper c h.1, ih _ h.2⟩

/-- Canonical header names are fixed by `CanonicalMIMEHeaderKey`: the names in a
header map built through it satisfy the name hypothesis of C6. -/
theorem CanonicalMIMEHeaderKey_idem (s : String) :
    CanonicalMIMEHeaderKey (CanonicalMIMEHeaderKey s) = CanonicalMIMEHeaderKey s := by
  unfold CanonicalMIMEHeaderKey
  by_cases h : s.data.all validHeaderFieldByte = true
  · simp only [h, if_true, valid_canonicalFrom true _ h, canonicalFrom_idem]
  · rw [if_neg h, if_neg h]

theorem copyHeader_cons (e : String × List String) (t : Header) :
    copyHeader (e :: t) = e.2.map (fun v => Event.headerAdd e.1 v) ++ copyHeader t := by
  simp [copyHeader]

/-- The trace of `direct` on a successful round trip whose status code the
response writer accepts. -/
theorem direct_ok (W : World) (r : Request) (proxy : String) (resp : Response)
    (hrt : W.RoundTrip (proxyFunc proxy) r = .ok resp)
    (hvalid : validWriteHeaderCode resp.StatusCode = true) :
    direct W r proxy =
      ([Event.log ("direct: r.url = " ++ r.URL ++ "\n"), .roundTrip] ++
        copyHeader resp.Header) ++
      Event.writeHeader resp.StatusCode ::
        ([Event.writeBody (ioCopy resp.Body W.copyFailure).1] ++
          (match (ioCopy resp.Body W.copyFailure).2 with
            | some _ => [Event.log ("Error copying response body from " ++ r.Host)]
            | none => []) ++
          [Event.bodyClose]) := by
  simp [direct, hrt, hvalid]

/-- The trace of `direct` on a successful round trip whose status code makes
`WriteHeader` panic. -/
theorem direct_panic (W : World) (r : Request) (proxy : String) (resp : Response)
    (hrt : W.RoundTrip (proxyFunc proxy) r = .ok resp)
    (hvalid : validWriteHeaderCode resp.StatusCode = false) :
    direct W r proxy =
      ([Event.log ("direct: r.url = " ++ r.URL ++ "\n"), .roundTrip] ++
        copyHeader resp.Header) ++
      [Event.writeHeader resp.StatusCode, .bodyClose, .panic resp.StatusCode] := by
  simp [direct, hrt, hvalid]

theorem closes_append (a b : List RelayEvent) : closes (a ++ b) = closes a ++ closes b := by
  induction a with
  | nil => rfl
  | cons e t ih => cases e <;> simp [closes, ih]

theorem closesAfterDone_snoc (t : List RelayEvent) (e : RelayEvent)
    (ht : ClosesAfterDone t)
    (he : (∀ c, e ≠ RelayEvent.close c) ∨
      (RelayEvent.wgDone .toUpstream ∈ t ∧ RelayEvent.wgDone .toClient ∈ t)) :
    ClosesAfterDone (t ++ [e]) := by
  intro pre c post h
  rcases List.eq_nil_or_concat post with hp | ⟨post', x, hp⟩
  · subst hp
    have h' := List.append_inj' h rfl
    rcases he with he | he
    · exact absurd (List.cons.inj h'.2).1 (he c)
    · rw [← h'.1]; exact he
  · subst hp
    have h2 : t ++ [e] = (pre ++ RelayEvent.close c :: post') ++ [x] := by
      rw [h]; simp
    exact ht pre c post' (List.append_inj' h2 rfl).1

theorem closesAfterDone_nil : ClosesAfterDone [] := by
  intro pre c post h
  cases pre <;> simp at h

theorem relayInv_init (upstream client : Conn) : RelayInv upstream client .init := by
  refine ⟨by decide, by decide, by decide, by decide, by simp [RelayState.init],
    by simp [RelayState.init], rfl, closesAfterDone_nil⟩

theorem relayInv_step (upstream client : Conn) (oUp oDown : CopyOutcome)
    (s s' : RelayState) (t : Tid) (hs : RelayInv upstream client s)
    (h : relayStep upstream client oUp oDown s t = some s') : RelayInv upstream client s' := by
  obtain ⟨pc, up, down, wg, trace⟩ := s
  obtain ⟨hwg, hup, hdown, hpast, hdu, hdd, hcl, hord⟩ := hs
  simp only at hwg hup hdown hpast hdu hdd hcl hord
  cases t with
  | relay =>
    cases pc <;> simp only [relayStep, reduceCtorEq, Option.some.injEq, ite_eq_left_iff,
      imp_false, Option.ite_none_right_eq_some] at h
    case start =>
      subst h
      refine ⟨?_, ?_, ?_, ?_, ?_, ?_, ?_, ?_⟩
      · simp_all
      · simp_all
      · simp_all
      · simp
      · simp_all
      · simp_all
      · simp_all [closes_append, closes]
      · exact closesAfterDone_snoc _ _ hord (Or.inl (by simp))
    case added =>
      subst h
      refine ⟨?_, ?_, ?_, ?_, ?_, ?_, ?_, ?_⟩
      · simp_all
      · simp_all
      · simp_all
      · simp
      · simp_all
      · simp_all
      · simp_all [closes_append, closes]
      · exact closesAfterDone_snoc _ _ hord (Or.inl (by simp))
    case spawned =>
      subst h
      refine ⟨?_, ?_, ?_, ?_, ?_, ?_, ?_, ?_⟩
      · simp_all
      · simp_all
      · simp_all
      · simp
      · simp_all
      · simp_all
      · simp_all [closes_append, closes]
      · exact closesAfterDone_snoc _ _ hord (Or.inl (by simp))
    case waiting =>
      obtain ⟨hw, h⟩ := h
      subst h
      have hfin : up = .finished ∧ down = .finished := by
        subst hw
        by_cases h1 : up = .finished <;> by_cases h2 : down = .finished <;>
          simp [h1, h2] at hwg ⊢
      refine ⟨?_, ?_, ?_, ?_, ?_, ?_, ?_, ?_⟩
      · simp_all
      · simp_all
      · simp_all
      · simp_all
      · simp_all
      · simp_all
      · simp_all [closes_append, closes]
      · exact closesAfterDone_snoc _ _ hord (Or.inl (by simp))
    case closingClient =>
      subst h
      refine ⟨?_, ?_, ?_, ?_, ?_, ?_, ?_, ?_⟩
      · simp_all
      · simp_all
      · simp_all
      · simp_all
      · simp_all
      · simp_all
      · simp_all [closes_append, closes]
      · exact closesAfterDone_snoc _ _ hord (Or.inr (by simp_all))
    case closingUpstream =>
      subst h
      refine ⟨?_, ?_, ?_, ?_, ?_, ?_, ?_, ?_⟩
      · simp_all
      · simp_all
      · simp_all
      · simp_all
      · simp_all
      · simp_all
      · simp_all [closes_append, closes]
      · exact closesAfterDone_snoc _ _ hord (Or.inr (by simp_all))
  | toUpstream =>
    cases up <;> simp only [relayStep, transfer, Option.map_none', Option.map_some',
      reduceCtorEq, Option.some.injEq] at h
    case copying =>
      subst h
      refine ⟨?_, ?_, ?_, ?_, ?_, ?_, ?_, ?_⟩
      · simp_all
      · simp_all
      · simp_all
      · simp_all
      · simp_all
      · simp_all
      · cases pc <;> simp_all [closes_append, closes]
      · exact closesAfterDone_snoc _ _ hord (Or.inl (by simp))
    case copied =>
      cases oUp with
      | eof =>
        simp only [Option.map_some', Option.some.injEq] at h
        subst h
        refine ⟨?_, ?_, ?_, ?_, ?_, ?_, ?_, ?_⟩
        · simp_all
        · simp_all
        · simp_all
        · simp_all
        · simp_all
        · simp_all
        · cases pc <;> simp_all [closes_append, closes]
        · simpa using hord
      | failed err =>
        simp only [Option.map_some', Option.some.injEq] at h
        subst h
        refine ⟨?_, ?_, ?_, ?_, ?_, ?_, ?_, ?_⟩
        · simp_all
        · simp_all
        · simp_all
        · simp_all
        · simp_all
        · simp_all
        · cases pc <;> simp_all [closes_append, closes]
        · exact closesAfterDone_snoc _ _ hord (Or.inl (by simp))
    case returning =>
      subst h
      refine ⟨?_, ?_, ?_, ?_, ?_, ?_, ?_, ?_⟩
      · simp_all; omega
      · simp_all
      · simp_all
      · simp_all
      · simp_all
      · simp_all
      · cases pc <;> simp_all [closes_append, closes]
      · exact closesAfterDone_snoc _ _ hord (Or.inl (by simp))
  | toClient =>
    cases down <;> simp only [relayStep, transfer, Option.map_none', Option.map_some',
      reduceCtorEq, Option.some.injEq] at h
    case copying =>
      subst h
      refine ⟨?_, ?_, ?_, ?_, ?_, ?_, ?_, ?_⟩
      · simp_all
      · simp_all
      · simp_all
      · simp_all
      · simp_all
      · simp_all
      · cases pc <;> simp_all [closes_append, closes]
      · exact closesAfterDone_snoc _ _ hord (Or.inl (by simp))
    case copied =>
      cases oDown with
      | eof =>
        simp only [Option.map_some', Option.some.injEq] at h
        subst h
        refine ⟨?_, ?_, ?_, ?_, ?_, ?_, ?_, ?_⟩
        · simp_all
        · simp_all
        · simp_all
        · simp_all
        · simp_all
        · simp_all
        · cases pc <;> simp_all [closes_append, closes]
        · simpa using hord
      | failed err =>
        simp only [Option.map_some', Option.some.injEq] at h
        subst h
        refine ⟨?_, ?_, ?_, ?_, ?_, ?_, ?_, ?_⟩
        · simp_all
        · simp_all
        · simp_all
        · simp_all
        · simp_all
        · simp_all
        · cases pc <;> simp_all [closes_append, closes]
        · exact closesAfterDone_snoc _ _ hord (Or.inl (by simp))
    case returning =>
      subst h
      refine ⟨?_, ?_, ?_, ?_, ?_, ?_, ?_, ?_⟩
      · simp_all; omega
      · simp_all
      · simp_all
      · simp_all
      · simp_all
      · simp_all
      · cases pc <;> simp_all [closes_append, closes]
      · exact closesAfterDone_snoc _ _ hord (Or.inl (by simp))

theorem relayRun_append (upstream client : Conn) (oUp oDown : CopyOutcome)
    (a b : List Tid) (s : RelayState) :
    relayRun upstream client oUp oDown (a ++ b) s =
      relayRun upstream client oUp oDown b (relayRun upstream client oUp oDown a s) := by
  induction a generalizing s with
  | nil => rfl
  | cons t ts ih =>
    simp only [List.cons_append, relayRun]
    cases relayStep upstream client oUp oDown s t <;> simp [ih]

theorem relayInv_run (upstream client : Conn) (oUp oDown : CopyOutcome)
    (sched : List Tid) (s : RelayState) (hs : RelayInv upstream client s) :
    RelayInv upstream client (relayRun upstream client oUp oDown sched s) := by
  induction sched generalizing s with
  | nil => exact hs
  | cons t ts ih =>
    simp only [relayRun]
    rcases h : relayStep upstream client oUp oDown s t with _ | s'
    · exact ih s hs
    · exact ih s' (relayInv_step upstream client oUp oDown s s' t hs h)

/-- Every step from a reachable state takes one of the remaining steps. -/
theorem relayStep_remaining (upstream client : Conn) (oUp oDown : CopyOutcome)
    (s s' : RelayState) (t : Tid) (hs : RelayInv upstream client s)
    (h : relayStep upstream client oUp oDown s t = some s') :
    s'.remaining + 1 ≤ s.remaining := by
  obtain ⟨pc, up, down, wg, trace⟩ := s
  obtain ⟨hwg, hup, hdown, hpast, hdu, hdd, hcl, hord⟩ := hs
  simp only at hwg hup hdown hpast hdu hdd hcl hord
  cases t with
  | relay =>
    cases pc <;> simp only [relayStep, reduceCtorEq, Option.some.injEq,
      Option.ite_none_right_eq_some] at h
    case waiting => obtain ⟨_, h⟩ := h; subst h; simp only [RelayState.remaining]; omega
    case added =>
      have hu : up = .notStarted := hup.mpr (Or.inr rfl)
      subst h; subst hu; simp only [RelayState.remaining]; omega
    case spawned =>
      have hd : down = .notStarted := hdown.mpr (Or.inr (Or.inr rfl))
      subst h; subst hd; simp only [RelayState.remaining]; omega
    all_goals subst h; simp only [RelayState.remaining]; omega
  | toUpstream =>
    cases up <;> simp only [relayStep, transfer, Option.map_none', Option.map_some',
      reduceCtorEq, Option.some.injEq] at h
    case copied =>
      cases oUp <;> simp only [Option.map_some', Option.some.injEq] at h <;> subst h <;>
        simp only [RelayState.remaining] <;> omega
    all_goals subst h; simp only [RelayState.remaining]; omega
  | toClient =>
    cases down <;> simp only [relayStep, transfer, Option.map_none', Option.map_some',
      reduceCtorEq, Option.some.injEq] at h
    case copied =>
      cases oDown <;> simp only [Option.map_some', Option.some.injEq] at h <;> subst h <;>
        simp only [RelayState.remaining] <;> omega
    all_goals subst h; simp only [RelayState.remaining]; omega

/-- A reachable relay that has not finished has a goroutine that can step. -/
theorem relay_can_step (upstream client : Conn) (oUp oDown : CopyOutcome)
    (s : RelayState) (hs : RelayInv upstream client s) (hne : s.pc ≠ .finished) :
    ∃ t s', relayStep upstream client oUp oDown s t = some s' := by
  obtain ⟨pc, up, down, wg, trace⟩ := s
  obtain ⟨hwg, hup, hdown, hpast, hdu, hdd, hcl, hord⟩ := hs
  simp only at hwg hup hdown hpast hdu hdd hcl hord hne
  cases pc
  case finished => exact absurd rfl hne
  case waiting =>
    by_cases h1 : up = .finished
    · by_cases h2 : down = .finished
      · have hw : wg = 0 := by simp [hwg, h1, h2]
        exact ⟨.relay, ⟨.closingClient, up, down, wg, trace ++ [.waitReturned]⟩,
          by simp [relayStep, hw]⟩
      · have hns : down ≠ .notStarted := fun h => by simp [h] at hdown
        refine ⟨.toClient, ?_⟩
        cases down with
        | notStarted => exact absurd rfl hns
        | finished => exact absurd rfl h2
        | copied => cases oDown <;> exact ⟨_, rfl⟩
        | copying => exact ⟨_, rfl⟩
        | returning => exact ⟨_, rfl⟩
    · have hns : up ≠ .notStarted := fun h => by simp [h] at hup
      refine ⟨.toUpstream, ?_⟩
      cases up with
      | notStarted => exact absurd rfl hns
      | finished => exact absurd rfl h1
      | copied => cases oUp <;> exact ⟨_, rfl⟩
      | copying => exact ⟨_, rfl⟩
      | returning => exact ⟨_, rfl⟩
  all_goals exact ⟨.relay, _, rfl⟩

/-- From every reachable state some schedule lets the relay task finish. -/
theorem relay_completes (upstream client : Conn) (oUp oDown : CopyOutcome) (n : Nat) :
    ∀ s : RelayState, RelayInv upstream client s → s.remaining ≤ n →
      ∃ ext, (relayRun upstream client oUp oDown ext s).pc = .finished := by
  induction n with
  | zero =>
    intro s _ hn
    refine ⟨[], ?_⟩
    obtain ⟨pc, up, down, wg, trace⟩ := s
    cases pc <;> simp [RelayState.remaining] at hn
    rfl
  | succ n ih =>
    intro s hs hn
    by_cases hfin : s.pc = .finished
    · exact ⟨[], hfin⟩
    · obtain ⟨t, s', hstep⟩ := relay_can_step upstream client oUp oDown s hs hfin
      have hdec := relayStep_remaining upstream client oUp oDown s s' t hs hstep
      obtain ⟨ext, hext⟩ := ih s' (relayInv_step upstream client oUp oDown s s' t hs hstep)
        (by omega)
      exact ⟨t :: ext, by simp [relayRun, hstep, hext]⟩

/-- The control part of a step does not depend on how the copies end. -/
theorem relayStep_control (upstream client : Conn) (oUp oDown oUp' oDown' : CopyOutcome)
    (s₁ s₂ : RelayState) (t : Tid) (hc : s₁.control = s₂.control) :
    (relayStep upstream client oUp oDown s₁ t).map RelayState.control =
      (relayStep upstream client oUp' oDown' s₂ t).map RelayState.control := by
  obtain ⟨pc, up, down, wg, trace⟩ := s₁
  obtain ⟨pc', up', down', wg', trace'⟩ := s₂
  simp only [RelayState.control, Prod.mk.injEq] at hc
  obtain ⟨rfl, rfl, rfl, rfl⟩ := hc
  cases t with
  | relay =>
    cases pc with
    | waiting => by_cases hw : wg = 0 <;> simp [relayStep, hw, RelayState.control]
    | _ => rfl
  | toUpstream =>
    cases up with
    | copied => cases oUp <;> cases oUp' <;> rfl
    | _ => rfl
  | toClient =>
    cases down with
    | copied => cases oDown <;> cases oDown' <;> rfl
    | _ => rfl

theorem relayRun_control (upstream client : Conn) (oUp oDown oUp' oDown' : CopyOutcome)
    (sched : List Tid) (s₁ s₂ : RelayState) (hc : s₁.control = s₂.control) :
    (relayRun upstream client oUp oDown sched s₁).control =
      (relayRun upstream client oUp' oDown' sched s₂).control := by
  induction sched generalizing s₁ s₂ with
  | nil => exact hc
  | cons t ts ih =>
    have h := relayStep_control upstream client oUp oDown oUp' oDown' s₁ s₂ t hc
    simp only [relayRun]
    rcases h1 : relayStep upstream client oUp oDown s₁ t with _ | a <;>
      rcases h2 : relayStep upstream client oUp' oDown' s₂ t with _ | b <;>
      rw [h1, h2] at h <;> simp at h
    · exact ih _ _ hc
    · exact ih _ _ h

theorem valid_200 : validWriteHeaderCode 200 = true := by decide

theorem valid_500 : validWriteHeaderCode 500 = true := by decide

theorem informational_200 : informational 200 = false := by decide

theorem informational_500 : informational 500 = false := by decide

theorem statusLines_200 : statusLines 200 = [200] := by decide

theorem statusLines_500 : statusLines 500 = [500] := by decide

theorem statusLines_final (code : Int) (h : finalStatus code = true) :
    statusLines code = [code] := by
  simp only [finalStatus, Bool.and_eq_true, Bool.not_eq_true'] at h
  simp [statusLines, h.1, h.2]

theorem close_not_mem_httpError (msg : String) (code : Int) (c : Conn) :
    Event.close c ∉ httpError msg code := by
  simp [httpError]

/-- The header-copy loop writes nothing to the client connection. -/
theorem statusesFrom_copyHeader (w h : Bool) (H : Header) (t : List Event) :
    statusesFrom w h (copyHeader H ++ t) = statusesFrom w h t := by
  induction H with
  | nil => rfl
  | cons kvs T ih =>
    rw [copyHeader_cons, List.append_assoc]
    induction kvs.2 with
    | nil => simpa using ih
    | cons v vs ihv => simpa [statusesFrom] using ihv

theorem statuses_httpError (msg : String) :
    statuses (httpError msg StatusInternalServerError) = [500] := by
  simp [statuses, statusesFrom, httpError, StatusInternalServerError, valid_500,
    informational_500]

theorem statuses_connect (W : World) (r : Request) :
    statuses (connect W r) =
      statusLines (match W.Dial "tcp" r.Host with
        | .error _ => 500
        | .ok () => if W.isHijacker then 200 else 500) := by
  rcases hd : W.Dial "tcp" r.Host with e | _
  · simp [connect, hd, statuses, statusesFrom, httpError, StatusInternalServerError,
      valid_500, informational_500, statusLines_500]
  · cases hh : W.isHijacker with
    | false =>
      simp [connect, hd, hh, statuses, statusesFrom, httpError, StatusInternalServerError,
        valid_500, informational_500, statusLines_500]
    | true =>
      cases hH : W.Hijack <;>
        simp [connect, hd, hh, hH, statuses, statusesFrom, StatusOK, valid_200,
          informational_200, statusLines_200]

theorem statuses_tunnel (W : World) (r : Request) (proxy : String) :
    statuses (tunnel W r proxy) =
      statusLines (match Url.Parse proxy with
        | .error _ => 500
        | .ok u =>
          match W.Dial "tcp" u.Host with
          | .error _ => 500
          | .ok () =>
            match W.ReadResponse (.dialed "tcp" u.Host) r with
            | .error _ => 500
            | .ok res => if W.isHijacker then res.StatusCode else 500) := by
  rcases hp : Url.Parse proxy with e | u
  · simp [tunnel, hp, statuses, statusesFrom, httpError, StatusInternalServerError,
      valid_500, informational_500, statusLines_500]
  · rcases hd : W.Dial "tcp" u.Host with e | _
    · simp [tunnel, hp, hd, statuses, statusesFrom, httpError, StatusInternalServerError,
        valid_500, informational_500, statusLines_500]
    · rcases hr : W.ReadResponse (.dialed "tcp" u.Host) r with e | res
      · simp [tunnel, hp, hd, hr, statuses, statusesFrom, httpError,
          StatusInternalServerError, valid_500, informational_500, statusLines_500]
      · cases hh : W.isHijacker with
        | false =>
          simp [tunnel, hp, hd, hr, hh, statuses, statusesFrom, httpError,
            StatusInternalServerError, valid_500, informational_500, statusLines_500]
        | true =>
          by_cases hs : res.StatusCode = 200
          · cases hH : W.Hijack <;>
              simp [tunnel, hp, hd, hr, hh, hH, statuses, statusesFrom, hs, StatusOK,
                valid_200, informational_200, statusLines_200]
          · cases hv : validWriteHeaderCode res.StatusCode with
            | false =>
              simp [tunnel, hp, hd, hr, hh, statuses, statusesFrom, hv, statusLines]
            | true =>
              cases hi : informational res.StatusCode <;>
                simp [tunnel, hp, hd, hr, hh, statuses, statusesFrom, hs, hv, hi, StatusOK,
                  statusLines]

theorem statuses_direct (W : World) (r : Request) (proxy : String) :
    statuses (direct W r proxy) =
      statusLines (match W.RoundTrip (proxyFunc proxy) r with
        | .error _ => 500
        | .ok resp => resp.StatusCode) := by
  rcases hrt : W.RoundTrip (proxyFunc proxy) r with e | resp
  · simp [direct, hrt, statuses, statusesFrom, httpError, StatusInternalServerError,
      valid_500, informational_500, statusLines_500]
  · cases hv : validWriteHeaderCode resp.StatusCode with
    | false =>
      rw [direct_panic W r proxy resp hrt hv]
      simp [statuses, statusesFrom, statusesFrom_copyHeader, hv, statusLines]
    | true =>
      rw [direct_ok W r proxy resp hrt hv]
      cases hi : informational resp.StatusCode <;>
        cases hc : (ioCopy resp.Body W.copyFailure).2 <;>
        simp [statuses, statusesFrom, statusesFrom_copyHeader, hv, hi, statusLines]

/-- What the client receives from `ServeHTTP`, on every outcome: the status
lines for the one code the handler hands to the response writer. -/
theorem statuses_ServeHTTP (W : World) (r : Request) :
    statuses (ServeHTTP W r) = statusLines (specStatus W r) := by
  have hdump : ∀ t, statuses ([Event.stdoutPrintln "dumping request:", .stdoutRequest] ++ t) =
      statuses t := fun t => rfl
  unfold ServeHTTP specStatus
  rw [hdump]
  rcases hres : W.FindProxyForURL r.URL with e | proxy
  · simp [statuses, statusesFrom, StatusInternalServerError, valid_500, informational_500,
      statusLines_500]
  · by_cases hm : r.Method = "CONNECT"
    · by_cases hp : proxy = "DIRECT"
      · simp only [hm, hp, MethodConnect, if_true]
        exact statuses_connect W r
      · simp only [hm, hp, MethodConnect, if_true, if_false]
        exact statuses_tunnel W r proxy
    · simp only [hm, MethodConnect, if_false]
      exact statuses_direct W r proxy

/-- In a list where `x` occurs once, the split around `x` is unique. -/
theorem split_unique {α : Type} {x : α} {A B pre post : List α}
    (hA : x ∉ A) (hB : x ∉ B) (h : A ++ x :: B = pre ++ x :: post) :
    pre = A ∧ post = B := by
  induction A generalizing pre with
  | nil =>
    cases pre with
    | nil => simpa using h.symm
    | cons y pre' =>
      simp only [List.nil_append, List.cons_append, List.cons.injEq] at h
      exact absurd (h.2 ▸ List.mem_append_right pre' (List.mem_cons_self x post)) hB
  | cons a A' ih =>
    cases pre with
    | nil =>
      simp only [List.nil_append, List.cons_append, List.cons.injEq] at h
      exact absurd (h.1 ▸ List.mem_cons_self a A') hA
    | cons y pre' =>
      simp only [List.cons_append, List.cons.injEq] at h
      have := ih (fun hm => hA (List.mem_cons_of_mem a hm)) h.2
      exact ⟨by rw [this.1, h.1], this.2⟩

/-- A list without `x` has no split around `x`. -/
theorem no_split {α : Type} {x : α} {t pre post : List α}
    (ht : x ∉ t) (h : t = pre ++ x :: post) : False :=
  ht (h ▸ List.mem_append_right pre (List.mem_cons_self x post))

/-- On the paths of `connect` that the claim C5 names, the dialed connection
is not closed. -/
theorem connect_no_hijacker (W : World) (r : Request)
    (hdial : W.Dial "tcp" r.Host = .ok ()) (hhij : W.isHijacker = false) :
    connect W r =
      Event.dial "tcp" r.Host ::
        httpError ("Can't hijack connection to " ++ r.Host) StatusInternalServerError := by
  simp [connect, hdial, hhij]

theorem tunnel_read_failure (W : World) (r : Request) (proxy : String) (proxyUrl : URL)
    (err : String)
    (hparse : Url.Parse proxy = .ok proxyUrl)
    (hdial : W.Dial "tcp" proxyUrl.Host = .ok ())
    (hread : W.ReadResponse (.dialed "tcp" proxyUrl.Host) r = .error err) :
    tunnel W r proxy =
      [Event.dial "tcp" proxyUrl.Host, .writeRequest (.dialed "tcp" proxyUrl.Host),
        .readResponse (.dialed "tcp" proxyUrl.Host)] ++
        httpError err StatusInternalServerError := by
  simp [tunnel, hparse, hdial, hread]

theorem tunnel_no_hijacker (W : World) (r : Request) (proxy : String) (proxyUrl : URL)
    (res : Response)
    (hparse : Url.Parse proxy = .ok proxyUrl)
    (hdial : W.Dial "tcp" proxyUrl.Host = .ok ())
    (hread : W.ReadResponse (.dialed "tcp" proxyUrl.Host) r = .ok res)
    (hhij : W.isHijacker = false) :
    tunnel W r proxy =
      [Event.dial "tcp" proxyUrl.Host, .writeRequest (.dialed "tcp" proxyUrl.Host),
        .readResponse (.dialed "tcp" proxyUrl.Host)] ++
        httpError ("Can't hijack connection to " ++ r.Host) StatusInternalServerError := by
  simp [tunnel, hparse, hdial, hread, hhij]

/-- Shape of the trace of a tunnel establisher around its `Hijack` call:
either there is none, or it follows a prefix holding the dial and
`WriteHeader(200)`, and is followed by the log line and `Close` when `Hijack`
fails and by the start of the relay when it succeeds. -/
theorem hijack_shape (W : World) (r : Request) (proxy : String) (t : List Event)
    (ht : t = connect W r ∨ t = tunnel W r proxy) :
    Event.hijack ∉ t ∨
      ∃ A a, (Event.dial "tcp" a ∈ A ∧ Event.writeHeader 200 ∈ A ∧ Event.hijack ∉ A
          ∧ ∀ u c, Event.goRelay u c ∉ A) ∧
        ((∃ e m, W.Hijack = .error e ∧
            t = A ++ Event.hijack :: [Event.log m, Event.close (.dialed "tcp" a)])
          ∨ (W.Hijack = .ok () ∧
            t = A ++ Event.hijack :: [Event.goRelay (.dialed "tcp" a) .hijacked])) := by
  rcases ht with ht | ht
  · rcases hd : W.Dial "tcp" r.Host with e | _
    · left; simp [ht, connect, hd, httpError]
    · cases hh : W.isHijacker with
      | false => left; simp [ht, connect, hd, hh, httpError]
      | true =>
        right
        refine ⟨[.dial "tcp" r.Host, .writeHeader 200], r.Host, by simp, ?_⟩
        rcases hH : W.Hijack with e | _
        · left
          exact ⟨e, "Error hijacking connection to " ++ r.Host, rfl,
            by simp [ht, connect, hd, hh, hH, StatusOK]⟩
        · right
          exact ⟨rfl, by simp [ht, connect, hd, hh, hH, StatusOK]⟩
  · rcases hp : Url.Parse proxy with e | u
    · left; simp [ht, tunnel, hp, httpError]
    · rcases hd : W.Dial "tcp" u.Host with e | _
      · left; simp [ht, tunnel, hp, hd, httpError]
      · rcases hr : W.ReadResponse (.dialed "tcp" u.Host) r with e | res
        · left; simp [ht, tunnel, hp, hd, hr, httpError]
        · cases hh : W.isHijacker with
          | false => left; simp [ht, tunnel, hp, hd, hr, hh, httpError]
          | true =>
            by_cases hs : res.StatusCode = StatusOK
            · right
              refine ⟨[.dial "tcp" u.Host, .writeRequest (.dialed "tcp" u.Host),
                .readResponse (.dialed "tcp" u.Host), .writeHeader 200], u.Host, by simp, ?_⟩
              rcases hH : W.Hijack with e | _
              · left
                exact ⟨e, "Error hijacking connection to " ++ r.Host, rfl,
                  by simp [ht, tunnel, hp, hd, hr, hh, hH, hs, StatusOK, valid_200]⟩
              · right
                exact ⟨rfl, by simp [ht, tunnel, hp, hd, hr, hh, hH, hs, StatusOK, valid_200]⟩
            · left
              cases hv : validWriteHeaderCode res.StatusCode <;>
                simp [ht, tunnel, hp, hd, hr, hh, hs, hv]

/-- A chained CONNECT whose directive parses to `proxyUrl`, with every later
step succeeding and upstream status 200. -/
theorem chained_tunnel_established (W : World) (r : Request) (proxy : String) (proxyUrl : URL)
    (res : Response)
    (hm : r.Method = "CONNECT")
    (hres : W.FindProxyForURL r.URL = .ok proxy)
    (hnd : proxy ≠ "DIRECT")
    (hparse : Url.Parse proxy = .ok proxyUrl)
    (hdial : W.Dial "tcp" proxyUrl.Host = .ok ())
    (hread : W.ReadResponse (.dialed "tcp" proxyUrl.Host) r = .ok res)
    (h200 : res.StatusCode = 200)
    (hhij : W.isHijacker = true)
    (hH : W.Hijack = .ok ()) :
    ServeHTTP W r =
        [.stdoutPrintln "dumping request:", .stdoutRequest,
          .dial "tcp" proxyUrl.Host, .writeRequest (.dialed "tcp" proxyUrl.Host),
          .readResponse (.dialed "tcp" proxyUrl.Host), .writeHeader 200, .hijack,
          .goRelay (.dialed "tcp" proxyUrl.Host) .hijacked]
      ∧ (∀ n a, Event.dial n a ∈ ServeHTTP W r → n = "tcp" ∧ a = proxyUrl.Host)
      ∧ statuses (ServeHTTP W r) = [200]
      ∧ Event.goRelay (.dialed "tcp" proxyUrl.Host) .hijacked ∈ ServeHTTP W r := by
  have ht : ServeHTTP W r =
      [.stdoutPrintln "dumping request:", .stdoutRequest,
        .dial "tcp" proxyUrl.Host, .writeRequest (.dialed "tcp" proxyUrl.Host),
        .readResponse (.dialed "tcp" proxyUrl.Host), .writeHeader 200, .hijack,
        .goRelay (.dialed "tcp" proxyUrl.Host) .hijacked] := by
    simp [ServeHTTP, hres, hm, hnd, MethodConnect, tunnel, hparse, hdial, hread, hhij,
      h200, StatusOK, hH, valid_200]
  refine ⟨ht, ?_, ?_, ?_⟩
  · intro n a; rw [ht]; simp
  · rw [ht]; simp [statuses, statusesFrom, valid_200, informational_200]
  · rw [ht]; simp

/-- A directive that begins with the keyword `PROXY` never makes `tunnel` dial a
named address: `url.Parse` rejects it or finds no host in it. -/
theorem tunnel_PROXY_never_dials (W : World) (r : Request) (s a : String) (ha : a ≠ "") :
    Event.dial "tcp" a ∉ tunnel W r ("PROXY " ++ s) := by
  rcases hp : Url.Parse ("PROXY " ++ s) with e | u
  · simp [tunnel, hp, httpError]
  · have hhost := Url.Parse_PROXY s u hp
    have hne : ¬ a = "" := ha
    rcases hd : W.Dial "tcp" "" with e | _
    · simp [tunnel, hp, hd, httpError, hhost, hne]
    · rcases hr : W.ReadResponse (.dialed "tcp" "") r with e | res
      · simp [tunnel, hp, hd, hr, httpError, hhost, hne]
      · cases hh : W.isHijacker with
        | false => simp [tunnel, hp, hd, hr, hh, httpError, hhost, hne]
        | true =>
          by_cases hs : res.StatusCode = StatusOK
          · cases hH : W.Hijack <;>
              simp [tunnel, hp, hd, hr, hh, hH, hs, hhost, hne, StatusOK, valid_200]
          · cases hv : validWriteHeaderCode res.StatusCode <;>
              simp [tunnel, hp, hd, hr, hh, hs, hv, hhost, hne]

theorem dial_mem_connect (W : World) (r : Request) :
    Event.dial "tcp" r.Host ∈ connect W r := by
  simp [connect]

theorem roundTrip_mem_direct (W : World) (r : Request) (proxy : String) :
    Event.roundTrip ∈ direct W r proxy := by
  simp [direct]

theorem tunnel_mem (W : World) (r : Request) (proxy : String) :
    (∃ a, Event.dial "tcp" a ∈ tunnel W r proxy) ∨
      Event.headerSet "X-Content-Type-Options" "nosniff" ∈ tunnel W r proxy := by
  unfold tunnel
  cases Url.Parse proxy with
  | error e => right; simp [httpError]
  | ok u => left; exact ⟨u.Host, by simp⟩

/-! ## Request router -/

/-- C1: when the policy resolver fails, `ServeHTTP` emits the diagnostic dump,
logs the error and writes status 500, and nothing else: exactly one status
(500) is written, no event of the trace dials, writes to, reads from, closes
or hijacks a connection, starts a relay or a round trip, and no trace of
`connect`, `tunnel` or `direct` ends the trace (none of them is entered). -/
theorem C1_resolver_failure (W : World) (r : Request) (err : String)
    (h : W.FindProxyForURL r.URL = .error err) :
    ServeHTTP W r =
        [.stdoutPrintln "dumping request:", .stdoutRequest, .log err, .writeHeader 500]
      ∧ statuses (ServeHTTP W r) = [500]
      ∧ (∀ e ∈ ServeHTTP W r, e.isConnEffect = false)
      ∧ (∀ proxy, ¬ (connect W r <:+ ServeHTTP W r)
          ∧ ¬ (tunnel W r proxy <:+ ServeHTTP W r)
          ∧ ¬ (direct W r proxy <:+ ServeHTTP W r)) := by
  have ht : ServeHTTP W r =
      [.stdoutPrintln "dumping request:", .stdoutRequest, .log err, .writeHeader 500] := by
    simp [ServeHTTP, h, StatusInternalServerError]
  refine ⟨ht, ?_, ?_, ?_⟩
  · rw [ht]; rfl
  · rw [ht]; simp [Event.isConnEffect]
  · intro proxy
    rw [ht]
    refine ⟨?_, ?_, ?_⟩
    · intro hs
      have := hs.subset (dial_mem_connect W r)
      simp at this
    · intro hs
      rcases tunnel_mem W r proxy with ⟨a, ha⟩ | ha
      · have := hs.subset ha
        simp at this
      · have := hs.subset ha
        simp at this
    · intro hs
      have := hs.subset (roundTrip_mem_direct W r proxy)
      simp at this

/-- Witness of C1 on the `GET` sample with a failing resolver. -/
theorem C1_resolver_failure_witness :
    ServeHTTP (sampleWorld (.error "pac: no route") 200 (.ok ())) sampleGet =
      [.stdoutPrintln "dumping request:", .stdoutRequest, .log "pac: no route",
        .writeHeader 500] :=
  (C1_resolver_failure (sampleWorld (.error "pac: no route") 200 (.ok ())) sampleGet
    "pac: no route" rfl).1

/-- C2: when the resolver answers `proxy`, the trace of `ServeHTTP` is the
diagnostic dump followed by the trace of exactly one handler: `connect` for
method CONNECT and directive `DIRECT`, `tunnel` (given `proxy`) for method
CONNECT and any other directive, `direct` (given `proxy` unchanged) for every
other method. -/
theorem C2_dispatch (W : World) (r : Request) (proxy : String)
    (h : W.FindProxyForURL r.URL = .ok proxy) :
    (r.Method = "CONNECT" → proxy = "DIRECT" →
        ServeHTTP W r = [.stdoutPrintln "dumping request:", .stdoutRequest] ++ connect W r)
      ∧ (r.Method = "CONNECT" → proxy ≠ "DIRECT" →
        ServeHTTP W r =
          [.stdoutPrintln "dumping request:", .stdoutRequest] ++ tunnel W r proxy)
      ∧ (r.Method ≠ "CONNECT" →
        ServeHTTP W r =
          [.stdoutPrintln "dumping request:", .stdoutRequest] ++ direct W r proxy) := by
  refine ⟨?_, ?_, ?_⟩
  · intro hm hp
    simp [ServeHTTP, h, hm, hp, MethodConnect]
  · intro hm hp
    simp [ServeHTTP, h, hm, hp, MethodConnect]
  · intro hm
    simp [ServeHTTP, h, hm, MethodConnect]

/-- Witness of C2: the three dispatch cases on the sample requests. -/
theorem C2_dispatch_witness :
    ServeHTTP (sampleWorld (.ok "DIRECT") 200 (.ok ())) sampleConnect =
        [.stdoutPrintln "dumping request:", .stdoutRequest] ++
          connect (sampleWorld (.ok "DIRECT") 200 (.ok ())) sampleConnect
      ∧ ServeHTTP (sampleWorld (.ok "http://10.0.0.1:3128") 200 (.ok ())) sampleConnect =
        [.stdoutPrintln "dumping request:", .stdoutRequest] ++
          tunnel (sampleWorld (.ok "http://10.0.0.1:3128") 200 (.ok ())) sampleConnect
            "http://10.0.0.1:3128"
      ∧ ServeHTTP (sampleWorld (.ok "http://10.0.0.1:3128") 200 (.ok ())) sampleGet =
        [.stdoutPrintln "dumping request:", .stdoutRequest] ++
          direct (sampleWorld (.ok "http://10.0.0.1:3128") 200 (.ok ())) sampleGet
            "http://10.0.0.1:3128" :=
  ⟨(C2_dispatch (sampleWorld (.ok "DIRECT") 200 (.ok ())) sampleConnect "DIRECT" rfl).1
      rfl rfl,
    (C2_dispatch (sampleWorld (.ok "http://10.0.0.1:3128") 200 (.ok ())) sampleConnect
      "http://10.0.0.1:3128" rfl).2.1 rfl (by decide),
    (C2_dispatch (sampleWorld (.ok "http://10.0.0.1:3128") 200 (.ok ())) sampleGet
      "http://10.0.0.1:3128" rfl).2.2 (by decide)⟩

/-! ## Chained tunnel establisher -/

/-- C3 (as stated) fails: in `tunnel`, with the directive parsed, the dial
succeeded, the upstream response parsed and hijacking supported, an upstream
status 0 makes `WriteHeader` panic, so no status reaches the client, and an
upstream status 100 goes out as an informational line that the server follows
with 200 when `tunnel` returns. -/
theorem C3_upstream_code_counterexample :
    tunnel (sampleWorld (.ok "http://10.0.0.1:3128") 0 (.ok ())) sampleConnect
        "http://10.0.0.1:3128" =
      [.dial "tcp" "10.0.0.1:3128", .writeRequest (.dialed "tcp" "10.0.0.1:3128"),
        .readResponse (.dialed "tcp" "10.0.0.1:3128"), .writeHeader 0, .panic 0]
      ∧ statuses (tunnel (sampleWorld (.ok "http://10.0.0.1:3128") 0 (.ok ())) sampleConnect
          "http://10.0.0.1:3128") = []
      ∧ statuses (tunnel (sampleWorld (.ok "http://10.0.0.1:3128") 100 (.ok ()))
          sampleConnect "http://10.0.0.1:3128") = [100, 200] := by
  decide

/-- C3 (amended): in `tunnel`, when the directive parses, the dial succeeds,
the upstream response parses, the writer supports hijacking and the upstream
status `s` is not 200: `Hijack` is never called, no relay is started and no
connection is closed; and when `s` is a code the response writer takes as the
status of the response (101 or 201 to 999), the trace is dial, request replay,
response read and `WriteHeader(s)`, and the client receives exactly the
status `s`. -/
theorem C3_tunnel_non200 (W : World) (r : Request) (proxy : String) (proxyUrl : URL)
    (res : Response)
    (hparse : Url.Parse proxy = .ok proxyUrl)
    (hdial : W.Dial "tcp" proxyUrl.Host = .ok ())
    (hread : W.ReadResponse (.dialed "tcp" proxyUrl.Host) r = .ok res)
    (hhij : W.isHijacker = true)
    (hs : res.StatusCode ≠ 200) :
    Event.hijack ∉ tunnel W r proxy
      ∧ (∀ u c, Event.goRelay u c ∉ tunnel W r proxy)
      ∧ (∀ c, Event.close c ∉ tunnel W r proxy)
      ∧ (finalStatus res.StatusCode = true →
          tunnel W r proxy =
            [.dial "tcp" proxyUrl.Host, .writeRequest (.dialed "tcp" proxyUrl.Host),
              .readResponse (.dialed "tcp" proxyUrl.Host), .writeHeader res.StatusCode]
          ∧ statuses (tunnel W r proxy) = [res.StatusCode]) := by
  have hst := statuses_tunnel W r proxy
  simp only [hparse, hdial, hread, hhij, if_true] at hst
  cases hv : validWriteHeaderCode res.StatusCode with
  | false =>
    have ht : tunnel W r proxy =
        [.dial "tcp" proxyUrl.Host, .writeRequest (.dialed "tcp" proxyUrl.Host),
          .readResponse (.dialed "tcp" proxyUrl.Host), .writeHeader res.StatusCode,
          .panic res.StatusCode] := by
      simp [tunnel, hparse, hdial, hread, hhij, hv]
    refine ⟨?_, ?_, ?_, ?_⟩
    · rw [ht]; simp
    · intro u c; rw [ht]; simp
    · intro c; rw [ht]; simp
    · intro hf
      simp [finalStatus, hv] at hf
  | true =>
    have ht : tunnel W r proxy =
        [.dial "tcp" proxyUrl.Host, .writeRequest (.dialed "tcp" proxyUrl.Host),
          .readResponse (.dialed "tcp" proxyUrl.Host), .writeHeader res.StatusCode] := by
      simp [tunnel, hparse, hdial, hread, hhij, hv, StatusOK, hs]
    refine ⟨?_, ?_, ?_, ?_⟩
    · rw [ht]; simp
    · intro u c; rw [ht]; simp
    · intro c; rw [ht]; simp
    · intro hf
      exact ⟨ht, by rw [hst, statusLines_final _ hf]⟩

/-- Witness of C3 (amended): the upstream `http://10.0.0.1:3128` answers 407. -/
theorem C3_tunnel_non200_witness :
    tunnel (sampleWorld (.ok "http://10.0.0.1:3128") 407 (.ok ())) sampleConnect
        "http://10.0.0.1:3128" =
      [.dial "tcp" "10.0.0.1:3128", .writeRequest (.dialed "tcp" "10.0.0.1:3128"),
        .readResponse (.dialed "tcp" "10.0.0.1:3128"), .writeHeader 407]
      ∧ statuses (tunnel (sampleWorld (.ok "http://10.0.0.1:3128") 407 (.ok ()))
          sampleConnect "http://10.0.0.1:3128") = [407] :=
  (C3_tunnel_non200 (sampleWorld (.ok "http://10.0.0.1:3128") 407 (.ok ())) sampleConnect
    "http://10.0.0.1:3128" { Scheme := "http", Host := "10.0.0.1:3128" } (sampleResponse 407)
    (by decide) rfl rfl rfl (by decide)).2.2.2 (by decide)

/-- C4 (as stated) fails: with the literal directive `PROXY 10.0.0.1:3128`,
a dialer, upstream (status 200) and hijacker that all succeed, `url.Parse`
rejects the directive, so `ServeHTTP` dials nothing, answers 500 and starts
no relay. -/
theorem C4_literal_directive_counterexample :
    Url.Parse "PROXY 10.0.0.1:3128" =
        .error "parse \"PROXY 10.0.0.1:3128\": first path segment in URL cannot contain colon"
      ∧ ServeHTTP (sampleWorld (.ok "PROXY 10.0.0.1:3128") 200 (.ok ())) sampleConnect =
        [.stdoutPrintln "dumping request:", .stdoutRequest,
          .headerSet "Content-Type" "text/plain; charset=utf-8",
          .headerSet "X-Content-Type-Options" "nosniff",
          .writeHeader 500,
          .writeText
            "parse \"PROXY 10.0.0.1:3128\": first path segment in URL cannot contain colon"]
      ∧ Event.dial "tcp" "10.0.0.1:3128" ∉
          ServeHTTP (sampleWorld (.ok "PROXY 10.0.0.1:3128") 200 (.ok ())) sampleConnect
      ∧ statuses (ServeHTTP (sampleWorld (.ok "PROXY 10.0.0.1:3128") 200 (.ok ()))
          sampleConnect) ≠ [200]
      ∧ Event.goRelay (.dialed "tcp" "10.0.0.1:3128") .hijacked ∉
          ServeHTTP (sampleWorld (.ok "PROXY 10.0.0.1:3128") 200 (.ok ())) sampleConnect := by
  decide

/-- C4 (amended): for a CONNECT request whose directive is the URL
`http://<host>:<port>` (`<host>` made of letters, digits, hyphens and dots,
`<port>` of decimal digits), when the dial to `<host>:<port>` succeeds, the
upstream replies 200, and hijacking is supported and succeeds: `url.Parse`
accepts the directive with host part `<host>:<port>`, `ServeHTTP` dials exactly
`<host>:<port>` (and nothing else), the client receives exactly the status
200, and the relay is started between the dialed connection and the hijacked
client connection. -/
theorem C4_url_directive (W : World) (r : Request) (host port : String) (res : Response)
    (hhost : ∀ c ∈ host.data, Url.isHostNameChar c = true)
    (hport : ∀ c ∈ port.data, Url.isDigit c = true)
    (hm : r.Method = "CONNECT")
    (hres : W.FindProxyForURL r.URL = .ok ("http://" ++ host ++ ":" ++ port))
    (hdial : W.Dial "tcp" (host ++ ":" ++ port) = .ok ())
    (hread : W.ReadResponse (.dialed "tcp" (host ++ ":" ++ port)) r = .ok res)
    (h200 : res.StatusCode = 200)
    (hhij : W.isHijacker = true)
    (hH : W.Hijack = .ok ()) :
    Url.Parse ("http://" ++ host ++ ":" ++ port) =
        .ok { Scheme := "http", Host := host ++ ":" ++ port }
      ∧ ServeHTTP W r =
        [.stdoutPrintln "dumping request:", .stdoutRequest,
          .dial "tcp" (host ++ ":" ++ port),
          .writeRequest (.dialed "tcp" (host ++ ":" ++ port)),
          .readResponse (.dialed "tcp" (host ++ ":" ++ port)), .writeHeader 200, .hijack,
          .goRelay (.dialed "tcp" (host ++ ":" ++ port)) .hijacked]
      ∧ (∀ n a, Event.dial n a ∈ ServeHTTP W r → n = "tcp" ∧ a = host ++ ":" ++ port)
      ∧ statuses (ServeHTTP W r) = [200]
      ∧ Event.goRelay (.dialed "tcp" (host ++ ":" ++ port)) .hijacked ∈ ServeHTTP W r := by
  have hparse := Url.Parse_http_hostport host port hhost hport
  have hnd : "http://" ++ host ++ ":" ++ port ≠ "DIRECT" := by
    intro h
    have hd := congrArg String.data h
    simp [String.data_append] at hd
  exact ⟨hparse, chained_tunnel_established W r _ _ res hm hres hnd hparse hdial hread h200
    hhij hH⟩

/-- Witness of C4 (amended): the directive `http://10.0.0.1:3128` parses to
host `10.0.0.1:3128`, which is dialed and relayed to. -/
theorem C4_url_directive_witness :
    Url.Parse "http://10.0.0.1:3128" = .ok { Scheme := "http", Host := "10.0.0.1:3128" }
      ∧ ServeHTTP (sampleWorld (.ok "http://10.0.0.1:3128") 200 (.ok ())) sampleConnect =
        [.stdoutPrintln "dumping request:", .stdoutRequest,
          .dial "tcp" "10.0.0.1:3128", .writeRequest (.dialed "tcp" "10.0.0.1:3128"),
          .readResponse (.dialed "tcp" "10.0.0.1:3128"), .writeHeader 200, .hijack,
          .goRelay (.dialed "tcp" "10.0.0.1:3128") .hijacked] :=
  ⟨(C4_url_directive (sampleWorld (.ok "http://10.0.0.1:3128") 200 (.ok ())) sampleConnect
      "10.0.0.1" "3128" (sampleResponse 200) (by decide) (by decide) rfl rfl rfl rfl rfl rfl
      rfl).1,
    (C4_url_directive (sampleWorld (.ok "http://10.0.0.1:3128") 200 (.ok ())) sampleConnect
      "10.0.0.1" "3128" (sampleResponse 200) (by decide) (by decide) rfl rfl rfl rfl rfl rfl
      rfl).2.1⟩

/-! ## Failures after the dial -/

/-- C5 (the code departs from the claim): on the three failures detected after
a successful dial and before a status is written (no hijack support in
`connect`, no hijack support in `tunnel`, unparsable upstream response in
`tunnel`), the handler answers 500 but its trace holds no `Close` at all: the
dialed connection is left open. -/
theorem C5_dialed_connection_left_open :
    (connect (noHijackerWorld (.ok "DIRECT")) sampleConnect =
        [.dial "tcp" "example.com:443",
          .headerSet "Content-Type" "text/plain; charset=utf-8",
          .headerSet "X-Content-Type-Options" "nosniff",
          .writeHeader 500,
          .writeText "Can't hijack connection to example.com:443"]
      ∧ ∀ c, Event.close c ∉ connect (noHijackerWorld (.ok "DIRECT")) sampleConnect)
    ∧ (tunnel (noHijackerWorld (.ok "http://10.0.0.1:3128")) sampleConnect
          "http://10.0.0.1:3128" =
        [.dial "tcp" "10.0.0.1:3128", .writeRequest (.dialed "tcp" "10.0.0.1:3128"),
          .readResponse (.dialed "tcp" "10.0.0.1:3128"),
          .headerSet "Content-Type" "text/plain; charset=utf-8",
          .headerSet "X-Content-Type-Options" "nosniff",
          .writeHeader 500,
          .writeText "Can't hijack connection to example.com:443"]
      ∧ ∀ c, Event.close c ∉
          tunnel (noHijackerWorld (.ok "http://10.0.0.1:3128")) sampleConnect
            "http://10.0.0.1:3128")
    ∧ (tunnel (badUpstreamWorld (.ok "http://10.0.0.1:3128")) sampleConnect
          "http://10.0.0.1:3128" =
        [.dial "tcp" "10.0.0.1:3128", .writeRequest (.dialed "tcp" "10.0.0.1:3128"),
          .readResponse (.dialed "tcp" "10.0.0.1:3128"),
          .headerSet "Content-Type" "text/plain; charset=utf-8",
          .headerSet "X-Content-Type-Options" "nosniff",
          .writeHeader 500,
          .writeText "malformed HTTP response"]
      ∧ ∀ c, Event.close c ∉
          tunnel (badUpstreamWorld (.ok "http://10.0.0.1:3128")) sampleConnect
            "http://10.0.0.1:3128") := by
  have h1 := connect_no_hijacker (noHijackerWorld (.ok "DIRECT")) sampleConnect rfl rfl
  have h2 := tunnel_no_hijacker (noHijackerWorld (.ok "http://10.0.0.1:3128")) sampleConnect
    "http://10.0.0.1:3128" { Scheme := "http", Host := "10.0.0.1:3128" } (sampleResponse 200)
    (by decide) rfl rfl rfl
  have h3 := tunnel_read_failure (badUpstreamWorld (.ok "http://10.0.0.1:3128")) sampleConnect
    "http://10.0.0.1:3128" { Scheme := "http", Host := "10.0.0.1:3128" }
    "malformed HTTP response" (by decide) rfl rfl
  refine ⟨⟨?_, ?_⟩, ⟨?_, ?_⟩, ⟨?_, ?_⟩⟩
  · rw [h1]; decide
  · intro c; rw [h1]; simp [httpError]
  · rw [h2]; decide
  · intro c; rw [h2]; simp [httpError]
  · rw [h3]; rfl
  · intro c; rw [h3]; simp [httpError]

/-! ## Forward relay: the response -/

/-- C7: the selector `proxyFunc` that `direct` installs in its transport
answers "no proxy" (`ok none`) exactly when the directive is `DIRECT`; for
every other directive it answers what `url.Parse` gives for the directive,
that is the parsed URL or the parse error; and its answer does not depend on
the request it is given. -/
theorem C7_proxy_selector (proxy : String) (r r' : Request) :
    (proxyFunc proxy r = .ok none ↔ proxy = "DIRECT")
      ∧ (proxy ≠ "DIRECT" →
          (∃ u, Url.Parse proxy = .ok u ∧ proxyFunc proxy r = .ok (some u))
            ∨ (∃ e, Url.Parse proxy = .error e ∧ proxyFunc proxy r = .error e))
      ∧ proxyFunc proxy r = proxyFunc proxy r' := by
  refine ⟨?_, ?_, rfl⟩
  · constructor
    · intro h
      by_contra hne
      rcases hp : Url.Parse proxy with e | u <;>
        simp [proxyFunc, hne, hp, Except.map] at h
    · intro h
      simp [proxyFunc, h]
  · intro hne
    rcases hp : Url.Parse proxy with e | u
    · right; exact ⟨e, rfl, by simp [proxyFunc, hne, hp, Except.map]⟩
    · left; exact ⟨u, rfl, by simp [proxyFunc, hne, hp, Except.map]⟩

/-- Witness of C7: `DIRECT` selects no proxy, `http://10.0.0.1:3128` selects
that upstream, and the literal `PROXY 10.0.0.1:3128` yields an error, none of
them a direct connection for a non-`DIRECT` directive. -/
theorem C7_proxy_selector_witness :
    proxyFunc "DIRECT" sampleGet = .ok none
      ∧ proxyFunc "http://10.0.0.1:3128" sampleGet =
          .ok (some { Scheme := "http", Host := "10.0.0.1:3128" })
      ∧ proxyFunc "PROXY 10.0.0.1:3128" sampleGet ≠ .ok none :=
  ⟨(C7_proxy_selector "DIRECT" sampleGet sampleGet).1.mpr rfl,
    by decide,
    fun h => absurd ((C7_proxy_selector "PROXY 10.0.0.1:3128" sampleGet sampleGet).1.mp h)
      (by decide)⟩

/-! ## Status before hijack -/

/-- C8: in the trace `t` of `connect` or of `tunnel`, every `Hijack` call comes
after a `WriteHeader(200)`; and when the `Hijack` call fails, what follows it
contains the `Close` of the connection that was dialed before it and no write
to the client (no header, status or body write), and the trace starts no
relay. -/
theorem C8_hijack_after_status (W : World) (r : Request) (proxy : String) (t : List Event)
    (ht : t = connect W r ∨ t = tunnel W r proxy) :
    (∀ pre post, t = pre ++ Event.hijack :: post → Event.writeHeader 200 ∈ pre)
      ∧ (∀ err, W.Hijack = .error err → ∀ pre post, t = pre ++ Event.hijack :: post →
          (∃ a, Event.dial "tcp" a ∈ pre ∧ Event.close (.dialed "tcp" a) ∈ post)
            ∧ (∀ e ∈ post, e.isClientWrite = false)
            ∧ (∀ u c, Event.goRelay u c ∉ t)) := by
  rcases hijack_shape W r proxy t ht with hno | ⟨A, a, ⟨hdial, h200, hA, hrel⟩, hcase⟩
  · exact ⟨fun pre post h => (no_split hno h).elim,
      fun _ _ pre post h => (no_split hno h).elim⟩
  · constructor
    · intro pre post h
      rcases hcase with ⟨e, m, _, hte⟩ | ⟨_, hto⟩
      · rw [(split_unique hA (by simp) (hte.symm.trans h)).1]; exact h200
      · rw [(split_unique hA (by simp) (hto.symm.trans h)).1]; exact h200
    · intro err herr pre post h
      rcases hcase with ⟨e, m, _, hte⟩ | ⟨hok, _⟩
      · have hu := split_unique hA (by simp) (hte.symm.trans h)
        refine ⟨⟨a, by rw [hu.1]; exact hdial, by rw [hu.2]; simp⟩, ?_, ?_⟩
        · rw [hu.2]; simp [Event.isClientWrite]
        · intro u c hmem
          rw [hte] at hmem
          simp only [List.mem_append, List.mem_cons, List.mem_singleton, reduceCtorEq,
            List.not_mem_nil, or_false, false_or] at hmem
          exact hrel u c hmem
      · rw [herr] at hok; cases hok

/-- Witness of C8: a direct CONNECT whose `Hijack` call fails. -/
theorem C8_hijack_after_status_witness :
    connect (sampleWorld (.ok "DIRECT") 200 (.error "hijack failed")) sampleConnect =
        [.dial "tcp" "example.com:443", .writeHeader 200] ++ Event.hijack ::
          [.log "Error hijacking connection to example.com:443",
            .close (.dialed "tcp" "example.com:443")]
      ∧ Event.writeHeader 200 ∈ [Event.dial "tcp" "example.com:443", .writeHeader 200]
      ∧ (∀ e ∈ [Event.log "Error hijacking connection to example.com:443",
            .close (.dialed "tcp" "example.com:443")], e.isClientWrite = false) :=
  ⟨by decide,
    (C8_hijack_after_status (sampleWorld (.ok "DIRECT") 200 (.error "hijack failed"))
      sampleConnect "DIRECT" _ (Or.inl rfl)).1
      [.dial "tcp" "example.com:443", .writeHeader 200]
      [.log "Error hijacking connection to example.com:443",
        .close (.dialed "tcp" "example.com:443")] (by decide),
    ((C8_hijack_after_status (sampleWorld (.ok "DIRECT") 200 (.error "hijack failed"))
      sampleConnect "DIRECT" _ (Or.inl rfl)).2 "hijack failed" rfl
      [.dial "tcp" "example.com:443", .writeHeader 200]
      [.log "Error hijacking connection to example.com:443",
        .close (.dialed "tcp" "example.com:443")] (by decide)).2.1⟩

/-! ## Relay teardown -/

/-- C9: for the relay over any two connections, any outcome of the two copies
(end-of-stream or error) and any interleaving `sched` of the three goroutines,
in the state reached: (1) every `Close` comes after the `wg.Done()` of both
`transfer` goroutines; (2) the connections closed so far are a prefix of
client, upstream, so each is closed at most once; (3) the relay task has ended
exactly when both have been closed, client then upstream, each once; (4) the
program counters and the wait-group counter are the same as when both copies
reach end-of-stream, so a copy error changes nothing but the log; (5) the
wait-group counter is not negative; (6) unless the relay task has ended some
goroutine can step, every step takes one of finitely many remaining steps, and
some continuation of the schedule lets the relay task finish. -/
theorem C9_relay_teardown (upstream client : Conn) (oUp oDown : CopyOutcome)
    (sched : List Tid) :
    (∀ pre c post,
        (relayRun upstream client oUp oDown sched .init).trace =
          pre ++ RelayEvent.close c :: post →
        RelayEvent.wgDone .toUpstream ∈ pre ∧ RelayEvent.wgDone .toClient ∈ pre)
      ∧ closes (relayRun upstream client oUp oDown sched .init).trace <+: [client, upstream]
      ∧ ((relayRun upstream client oUp oDown sched .init).pc = .finished ↔
          closes (relayRun upstream client oUp oDown sched .init).trace = [client, upstream])
      ∧ (relayRun upstream client oUp oDown sched .init).control =
          (relayRun upstream client .eof .eof sched .init).control
      ∧ 0 ≤ (relayRun upstream client oUp oDown sched .init).wg
      ∧ ((relayRun upstream client oUp oDown sched .init).pc ≠ .finished →
          ∃ t s', relayStep upstream client oUp oDown
            (relayRun upstream client oUp oDown sched .init) t = some s')
      ∧ (∀ t s', relayStep upstream client oUp oDown
            (relayRun upstream client oUp oDown sched .init) t = some s' →
          s'.remaining < (relayRun upstream client oUp oDown sched .init).remaining)
      ∧ ∃ ext, (relayRun upstream client oUp oDown (sched ++ ext) .init).pc = .finished := by
  have hinv := relayInv_run upstream client oUp oDown sched .init
    (relayInv_init upstream client)
  generalize hs : relayRun upstream client oUp oDown sched .init = s at hinv ⊢
  have hinv' := hinv
  obtain ⟨hwg, hup, hdown, hpast, hdu, hdd, hcl, hord⟩ := hinv'
  refine ⟨hord, ?_, ?_, ?_, ?_, ?_, ?_, ?_⟩
  · rw [hcl]
    cases s.pc <;> simp [List.prefix_iff_eq_take]
  · rw [hcl]
    cases s.pc <;> simp
  · rw [← hs]
    exact relayRun_control upstream client oUp oDown .eof .eof sched _ _ rfl
  · rw [hwg]
    by_cases h0 : s.pc = .start
    · have h1 : s.up = .notStarted := hup.mpr (Or.inl h0)
      have h2 : s.down = .notStarted := hdown.mpr (Or.inl h0)
      simp [h0, h1, h2]
    · by_cases h1 : s.up = .finished <;> by_cases h2 : s.down = .finished <;>
        simp [h0, h1, h2]
  · exact relay_can_step upstream client oUp oDown s hinv
  · intro t s' hstep
    exact relayStep_remaining upstream client oUp oDown s s' t hinv hstep
  · obtain ⟨ext, hext⟩ := relay_completes upstream client oUp oDown s.remaining s hinv
      (le_refl _)
    exact ⟨ext, by rw [relayRun_append, hs]; exact hext⟩

/-- Witness of C9: the copy towards the client fails, the goroutines
interleave, and both connections end up closed, client first. -/
theorem C9_relay_teardown_witness :
    closes (relayRun (.dialed "tcp" "example.com:443") .hijacked .eof
        (.failed "connection reset by peer")
        [.relay, .toUpstream, .relay, .relay, .relay, .toClient, .toClient, .toUpstream,
          .toUpstream, .toClient, .toUpstream, .relay, .relay, .relay, .relay]
        .init).trace =
      [.hijacked, .dialed "tcp" "example.com:443"] :=
  (C9_relay_teardown (.dialed "tcp" "example.com:443") .hijacked .eof
    (.failed "connection reset by peer")
    [.relay, .toUpstream, .relay, .relay, .relay, .toClient, .toClient, .toUpstream,
      .toUpstream, .toClient, .toUpstream, .relay, .relay, .relay, .relay]).2.2.1.mp
    (by decide)

/-! ## Exactly one status -/

/-- C10 (as stated) fails: on a chained CONNECT whose upstream answers with
status 0 the client receives no status at all (`WriteHeader(0)` panics), and
with status 100 it receives two, 100 and then 200; on a `GET` whose round trip
answers with status 0 it receives none either. -/
theorem C10_status_count_counterexample :
    statuses (ServeHTTP (sampleWorld (.ok "http://10.0.0.1:3128") 0 (.ok ()))
        sampleConnect) = []
      ∧ statuses (ServeHTTP (sampleWorld (.ok "http://10.0.0.1:3128") 100 (.ok ()))
        sampleConnect) = [100, 200]
      ∧ statuses (ServeHTTP (sampleWorld (.ok "DIRECT") 0 (.ok ())) sampleGet) = [] := by
  decide

/-- C10 (amended): for every request and every combination of outcomes of the
resolver, URL parse, dial, upstream response read, hijack-capability check,
hijack, round trip and body copy in which the code that is handed to the
response writer is one it takes as the status of the response (the handler's
own 500 and 200 always are; an upstream's code is when it is 101 or 200 to
999), the client receives exactly one status code, and it is the one the
specification names (`specStatus`): 500 on each failure detected before a
status is written, 200 for an accepted direct CONNECT, the upstream's status
otherwise. -/
theorem C10_exactly_one_status (W : World) (r : Request)
    (hfinal : finalStatus (specStatus W r) = true) :
    statuses (ServeHTTP W r) = [specStatus W r]
      ∧ (statuses (ServeHTTP W r)).length = 1 := by
  have h : statuses (ServeHTTP W r) = [specStatus W r] := by
    rw [statuses_ServeHTTP, statusLines_final _ hfinal]
  exact ⟨h, by rw [h]; rfl⟩

/-- Witness of C10 (amended): a chained CONNECT answered 407 by the upstream. -/
theorem C10_exactly_one_status_witness :
    statuses (ServeHTTP (sampleWorld (.ok "http://10.0.0.1:3128") 407 (.ok ()))
        sampleConnect) = [407] :=
  (C10_exactly_one_status (sampleWorld (.ok "http://10.0.0.1:3128") 407 (.ok ()))
    sampleConnect (by decide)).1

end Alpaca
